import Mathlib

/-!
Verification development for the neophyte RPC session layer.

The definitions below are a shallow embedding of the Rust sources:
`src/neovim.rs` (session, request/response correlation, reader/writer
threads, input modifiers) and `src/event/grid_line.rs`,
`src/event/hl_attr_define.rs` (event decoding).  Types that the sources
use but whose defining module is not part of the source tree (the `rpc`
module, the `event/util` helpers and the event registry) are modelled
from the specification and marked as such in their doc comments.
-/

namespace Neophyte

/-- Embedding of the dynamic wire value type (`rmpv::Value` /
`nvim_rs::Value`): a self-describing structured value with
nil/bool/int/string/binary/array/map variants.  The float and extension
variants are omitted: no code path modelled here inspects them. -/
inductive RValue where
  | nil
  | bool (b : Bool)
  | int (n : Int)
  | str (s : String)
  | binary (bs : List Nat)
  | arr (vs : List RValue)
  | map (ps : List (RValue × RValue))

/-- Modelled from the spec (the `rpc` module is absent from the source
tree; §3 "Message: tagged union" and the field usage in `neovim.rs`):
a request carries msgid, method and params. -/
structure Request where
  msgid : Nat
  method : String
  params : List RValue

/-- Modelled from the spec (the `rpc` module is absent from the source
tree): a response carries msgid, result and error, exactly the fields
destructured at `neovim.rs` lines 440-444. -/
structure Response where
  msgid : Nat
  result : RValue
  error : RValue

/-- Modelled from the spec (the `rpc` module is absent from the source
tree): a notification carries a method name and params. -/
structure Notification where
  method : String
  params : List RValue

/-- Modelled from the spec (§3): the tagged union of the three message
kinds travelling on the wire. -/
inductive Message where
  | request (r : Request)
  | response (r : Response)
  | notification (n : Notification)

/-! ## Input modifiers (`neovim.rs` lines 231-304) -/

/-- `struct Modifiers(u8)`: a bitset of keyboard modifiers. -/
structure Modifiers where
  bits : Nat

/-- `Modifiers::CTRL = 0b0001`. -/
def Modifiers.CTRL : Nat := 1

/-- `Modifiers::SHIFT = 0b0010`. -/
def Modifiers.SHIFT : Nat := 2

/-- `Modifiers::ALT = 0b0100`. -/
def Modifiers.ALT : Nat := 4

/-- `Modifiers::LOGO = 0b1000`. -/
def Modifiers.LOGO : Nat := 8

/-- `Modifiers::new()`. -/
def Modifiers.new : Modifiers := ⟨0⟩

/-- `with_ctrl`: `self.0 | (CTRL * value as u8)`. -/
def Modifiers.with_ctrl (m : Modifiers) (value : Bool) : Modifiers :=
  ⟨m.bits ||| (Modifiers.CTRL * value.toNat)⟩

/-- `ctrl`: `self.0 & CTRL > 0`. -/
def Modifiers.ctrl (m : Modifiers) : Bool :=
  decide (m.bits &&& Modifiers.CTRL > 0)

/-- `with_shift`: `self.0 | (SHIFT * value as u8)`. -/
def Modifiers.with_shift (m : Modifiers) (value : Bool) : Modifiers :=
  ⟨m.bits ||| (Modifiers.SHIFT * value.toNat)⟩

/-- `shift`: `self.0 & SHIFT > 0`. -/
def Modifiers.shift (m : Modifiers) : Bool :=
  decide (m.bits &&& Modifiers.SHIFT > 0)

/-- `with_alt`: `self.0 | (ALT * value as u8)`. -/
def Modifiers.with_alt (m : Modifiers) (value : Bool) : Modifiers :=
  ⟨m.bits ||| (Modifiers.ALT * value.toNat)⟩

/-- `alt`: `self.0 & ALT > 0`. -/
def Modifiers.alt (m : Modifiers) : Bool :=
  decide (m.bits &&& Modifiers.ALT > 0)

/-- `with_logo`: `self.0 | (LOGO * value as u8)`. -/
def Modifiers.with_logo (m : Modifiers) (value : Bool) : Modifiers :=
  ⟨m.bits ||| (Modifiers.LOGO * value.toNat)⟩

/-- `logo`: `self.0 & LOGO > 0`. -/
def Modifiers.logo (m : Modifiers) : Bool :=
  decide (m.bits &&& Modifiers.LOGO > 0)

/-- `impl From<Modifiers> for String`: concatenates "C", "S", "A" for the
ctrl, shift and alt flags, in that order. -/
def Modifiers.toEncodedString (m : Modifiers) : String :=
  (if m.ctrl then "C" else "") ++ (if m.shift then "S" else "") ++
    (if m.alt then "A" else "")

/-! ## Request/response correlation (`neovim.rs` lines 306-377)

The source comment reads: "Responses must be given in reverse order of
requests (like unwinding a stack)".  `Incoming.requests` is a `Vec<u64>`
used as a LIFO stack (push at the end, `last()` is the top).
`Incoming.responses` is a `BinaryHeap<QueuedResponse>` whose `Ord`
compares `msgid` only; a Rust `BinaryHeap` is a max-heap, so `peek`
returns a buffered response of greatest msgid.  The heap is modelled as
a list kept sorted by msgid in decreasing order: `heapPush` inserts in
order, the head is `peek`, the tail is the state after `pop`. -/

/-- Ordering relation of `QueuedResponse`: greater msgid comes first. -/
def respGE (a b : Response) : Prop := b.msgid ≤ a.msgid

instance : DecidableRel respGE :=
  fun a b => inferInstanceAs (Decidable (b.msgid ≤ a.msgid))

instance : IsTotal Response respGE :=
  ⟨fun a b => Or.symm (Nat.le_total a.msgid b.msgid)⟩

instance : IsTrans Response respGE :=
  ⟨fun _ _ _ h1 h2 => Nat.le_trans h2 h1⟩

/-- Model of `BinaryHeap::push`: insert keeping the list sorted by
decreasing msgid. -/
def heapPush (h : List Response) (r : Response) : List Response :=
  List.orderedInsert respGE r h

/-- The shared state `Incoming { requests, responses }`. -/
structure Incoming where
  requests : List Nat
  responses : List Response

/-- `Incoming::new()` (`Default::default()`): both structures empty. -/
def Incoming.new : Incoming := ⟨[], []⟩

/-- `Incoming::push_request`: push the msgid of a request received from
the subprocess onto the stack (`Vec::push` appends at the end). -/
def Incoming.push_request (inc : Incoming) (msgid : Nat) : Incoming :=
  { inc with requests := inc.requests ++ [msgid] }

/-- `Incoming::next_ready`: if the stack top (`requests.last()`) equals
the msgid of the heap's peek (`responses.peek()`), pop both and return
the response; otherwise return nothing. -/
def Incoming.next_ready (inc : Incoming) : Option (Response × Incoming) :=
  match inc.requests.getLast?, inc.responses.head? with
  | some id, some r =>
      if id = r.msgid then
        some (r, ⟨inc.requests.dropLast, inc.responses.tail⟩)
      else
        none
  | _, _ => none

/-- The `while let Some(ready) = self.next_ready()` loop of
`push_response`, written with explicit fuel.  Each successful
`next_ready` pops one element of `requests`, so `requests.length` bounds
the number of iterations and the fuelled function agrees with the Rust
loop whenever `fuel ≥ requests.length`.  Returns the responses sent on
the channel, in send order, together with the final state. -/
def drainAux : Nat → Incoming → List Response × Incoming
  | 0, inc => ([], inc)
  | fuel + 1, inc =>
      match inc.next_ready with
      | none => ([], inc)
      | some (r, inc') =>
          let (rs, incf) := drainAux fuel inc'
          (r :: rs, incf)

/-- The drain loop of `push_response`, with enough fuel to run to
completion. -/
def Incoming.drain (inc : Incoming) : List Response × Incoming :=
  drainAux inc.requests.length inc

/-- `Incoming::push_response`: push the response onto the heap, then
send every ready response on the channel.  The emitted list is the
sequence of `tx.send` calls in order. -/
def Incoming.push_response (inc : Incoming) (r : Response) :
    List Response × Incoming :=
  Incoming.drain { inc with responses := heapPush inc.responses r }

/-- Feeding a list of msgids to `push_request`, in order. -/
def Incoming.pushRequests (inc : Incoming) (ids : List Nat) : Incoming :=
  ids.foldl Incoming.push_request inc

/-- Feeding a list of responses to `push_response`, in arrival order,
concatenating the responses emitted on the channel. -/
def Incoming.runArrivals (inc : Incoming) :
    List Response → List Response × Incoming
  | [] => ([], inc)
  | r :: rest =>
      let (out, inc1) := inc.push_response r
      let (outRest, inc2) := inc1.runArrivals rest
      (out ++ outRest, inc2)

/-! ### Spec-side release mechanisms, for the refinement claim

The spec describes `receive_response` as: insert into the buffer, then
"repeatedly test whether the buffer's minimum msgid equals
PendingRequests' top; while true, pop both, emit the response and
repeat".  The two definitions below follow the spec's words over an
unordered buffer, once with the minimum (the spec's wording) and once
with the maximum, to be compared against the source's max-heap. -/

/-- The first buffered response carrying the minimum msgid of the
buffer. -/
def bufferMin (buf : List Response) : Option Response :=
  match (buf.map Response.msgid).min? with
  | none => none
  | some m => buf.find? (fun r => r.msgid = m)

/-- The first buffered response carrying the maximum msgid of the
buffer. -/
def bufferMax (buf : List Response) : Option Response :=
  match (buf.map Response.msgid).max? with
  | none => none
  | some m => buf.find? (fun r => r.msgid = m)

/-- Modelled from the spec: release loop that, while the buffer's
minimum msgid equals the stack top, pops both and emits the response.
Fuelled like `drainAux`. -/
def drainSpecMinAux : Nat → List Nat → List Response →
    List Response × List Nat × List Response
  | 0, reqs, buf => ([], reqs, buf)
  | fuel + 1, reqs, buf =>
      match reqs.getLast?, bufferMin buf with
      | some id, some r =>
          if id = r.msgid then
            let (out, reqs', buf') :=
              drainSpecMinAux fuel reqs.dropLast (buf.eraseP (fun x => x.msgid == r.msgid))
            (r :: out, reqs', buf')
          else
            ([], reqs, buf)
      | _, _ => ([], reqs, buf)

/-- Modelled from the spec (amended reading): release loop that, while
the buffer's maximum msgid equals the stack top, pops both and emits the
response. -/
def drainSpecMaxAux : Nat → List Nat → List Response →
    List Response × List Nat × List Response
  | 0, reqs, buf => ([], reqs, buf)
  | fuel + 1, reqs, buf =>
      match reqs.getLast?, bufferMax buf with
      | some id, some r =>
          if id = r.msgid then
            let (out, reqs', buf') :=
              drainSpecMaxAux fuel reqs.dropLast (buf.eraseP (fun x => x.msgid == r.msgid))
            (r :: out, reqs', buf')
          else
            ([], reqs, buf)
      | _, _ => ([], reqs, buf)

/-- Modelled from the spec: `receive_response` as the spec words it,
with the minimum-msgid test: insert, then cascade-release. -/
def receiveResponseSpecMin (reqs : List Nat) (buf : List Response)
    (r : Response) : List Response × List Nat × List Response :=
  drainSpecMinAux reqs.length reqs (r :: buf)

/-- Modelled from the spec (amended reading): `receive_response` with
the maximum-msgid test: insert, then cascade-release. -/
def receiveResponseSpecMax (reqs : List Nat) (buf : List Response)
    (r : Response) : List Response × List Nat × List Response :=
  drainSpecMaxAux reqs.length reqs (r :: buf)

/-! ## The session handle `Neovim` (`neovim.rs` lines 17-141) -/

/-- The state behind a `Neovim` handle: the `next_msgid` counter
(`Arc<Mutex<u64>>`, starting from `Default::default() = 0`), the queue
of messages handed to the writer thread (`mpsc::Sender`), and the shared
`Incoming` state.  The mutex and `RwLock` serialize access; the model is
the serialized (sequential) behavior. -/
structure NeovimState where
  next_msgid : Nat
  queue : List Message
  incoming : Incoming

/-- The session state right after `Neovim::new()`. -/
def NeovimState.init : NeovimState := ⟨0, [], Incoming.new⟩

/-- `Neovim::call`: lock the counter, take its value as the msgid,
increment it, build the `Request`, send it to the writer thread, and
return the msgid immediately.  Note that `call` never touches
`incoming`. -/
def NeovimState.call (st : NeovimState) (method : String)
    (args : List RValue) : Nat × NeovimState :=
  let msgid := st.next_msgid
  let st := { st with next_msgid := msgid + 1 }
  let req : Request := ⟨msgid, method, args⟩
  (msgid, { st with queue := st.queue ++ [Message.request req] })

/-- Iterating `call` over a list of (method, args) pairs, collecting the
returned msgids in order. -/
def NeovimState.runCalls (st : NeovimState) :
    List (String × List RValue) → List Nat × NeovimState
  | [] => ([], st)
  | (m, a) :: rest =>
      let (id, st1) := st.call m a
      let (ids, st2) := st1.runCalls rest
      (id :: ids, st2)

/-! ## The reader thread (`neovim.rs` lines 396-456)

`StdoutThread::start` loops: decode one message; on a decode error,
classify it (EOF-kinds are silent, everything else is logged as an
error), call `handler.handle_shutdown()` and return; otherwise dispatch
the message and continue.  The observable actions (log statements,
handler calls) are modelled as an ordered list of effects. -/

/-- The `io::ErrorKind` values distinguished by the reader: only
`UnexpectedEof` is treated specially, every other kind takes the
catch-all arm.  Modelled from the match in `StdoutThread::start` (the
type itself is from the standard library). -/
inductive IoErrorKind where
  | unexpectedEof
  | otherKind

/-- The `rmpv::decode::Error` variants matched by the reader; the two
read variants carry an `io::Error` of which only `kind()` is consulted.
Modelled from the match in `StdoutThread::start` (the type itself is
from the `rmpv` crate). -/
inductive RmpvError where
  | invalidMarkerRead (k : IoErrorKind)
  | invalidDataRead (k : IoErrorKind)
  | depthLimitExceeded

/-- Modelled from the spec (the `rpc` module is absent from the source
tree): `rpc::DecodeError` as matched in `StdoutThread::start`, either a
wrapped `rmpv` decode error or a failure to parse the decoded value as
an RPC message. -/
inductive DecodeError where
  | rmpv (e : RmpvError)
  | parseFail

/-- Decode errors whose underlying `io::ErrorKind` is `UnexpectedEof`:
the expected shutdown signal, not logged. -/
def DecodeError.isEof : DecodeError → Bool
  | .rmpv (.invalidMarkerRead .unexpectedEof) => true
  | .rmpv (.invalidDataRead .unexpectedEof) => true
  | _ => false

/-- One observable action of the reader thread, in program order: a log
statement at a given level, or a handler invocation. -/
inductive Effect where
  | logInfoRequest (method : String) (params : List RValue)
  | logErrorResponse (msgid : Nat) (err : RValue)
  | logInfoResponse (msgid : Nat) (res : RValue)
  | logErrorDecode (e : DecodeError)
  | callRequest (r : Request)
  | callNotification (n : Notification)
  | callShutdown

/-- Recognizer for the shutdown handler call. -/
def Effect.isShutdown : Effect → Bool
  | .callShutdown => true
  | _ => false

/-- Recognizer for the decode-failure error log. -/
def Effect.isDecodeErrorLog : Effect → Bool
  | .logErrorDecode _ => true
  | _ => false

/-- Recognizer for error-level log statements. -/
def Effect.isErrorLog : Effect → Bool
  | .logErrorResponse _ _ => true
  | .logErrorDecode _ => true
  | _ => false

/-- The loop body of `StdoutThread::start` for one successfully decoded
message: a request is logged, its msgid pushed via `push_request` and
the handler invoked; a response is logged (error level exactly when its
`error` field is not nil) and dropped; a notification is handed to the
handler.  Returns the updated shared state and the effects in order. -/
def readerStep (inc : Incoming) : Message → Incoming × List Effect
  | .request r =>
      (inc.push_request r.msgid,
        [Effect.logInfoRequest r.method r.params, Effect.callRequest r])
  | .response r =>
      (inc,
        [match r.error with
         | .nil => Effect.logInfoResponse r.msgid r.result
         | _ => Effect.logErrorResponse r.msgid r.error])
  | .notification n => (inc, [Effect.callNotification n])

/-- The effects of the error arm of `StdoutThread::start`: an EOF-kind
error is silent, any other decode failure is logged as an error; in
every case `handle_shutdown` is invoked and the loop returns. -/
def shutdownEffects (e : DecodeError) : List Effect :=
  (if e.isEof then [] else [Effect.logErrorDecode e]) ++
    [Effect.callShutdown]

/-- `StdoutThread::start`, with the inbound stream represented as the
list of messages that decode successfully followed by the decode error
that ends the loop (the loop only terminates through the error arm). -/
def readerRun (inc : Incoming) : List Message → DecodeError →
    Incoming × List Effect
  | [], e => (inc, shutdownEffects e)
  | m :: rest, e =>
      let (inc1, effs) := readerStep inc m
      let (inc2, effsRest) := readerRun inc1 rest e
      (inc2, effs ++ effsRest)

/-! ## Event decoding helpers

The `event/util` module is absent from the source tree; its helpers are
modelled from the spec (§4.2: events destructure their parameter array
strictly left to right; map-shaped sub-values are read as string-keyed
mappings) and from their call sites. -/

/-- Modelled from the spec: `parse_u64`, the integer accessor of the
dynamic value type (defined on non-negative integers). -/
def parse_u64 : RValue → Option Nat
  | .int n => if 0 ≤ n then some n.toNat else none
  | _ => none

/-- Modelled from the spec: `parse_bool`, the boolean accessor. -/
def parse_bool : RValue → Option Bool
  | .bool b => some b
  | _ => none

/-- Modelled from the spec: `parse_string`, the string accessor. -/
def parse_string : RValue → Option String
  | .str s => some s
  | _ => none

/-- Modelled from the spec: `parse_array`, the array accessor. -/
def parse_array : RValue → Option (List RValue)
  | .arr vs => some vs
  | _ => none

/-- Modelled from the spec: `parse_map`, the map accessor. -/
def parse_map : RValue → Option (List (RValue × RValue))
  | .map ps => some ps
  | _ => none

/-- Modelled from the spec: one step of `ValueIter::next` specialised by
an element parser: on an exhausted iterator yield `none`, otherwise
parse the next element (a wrong-typed element also yields `none`) and
advance. -/
def iterNext (l : List RValue) (p : RValue → Option α) :
    Option α × List RValue :=
  match l with
  | [] => (none, [])
  | v :: rest => (p v, rest)

/-- Option-valued analogue of iterator `collect`: map a fallible
function over a list, short-circuiting on the first failure. -/
def collectOption (p : α → Option β) : List α → Option (List β)
  | [] => some []
  | x :: rest =>
      match p x with
      | none => none
      | some y =>
          match collectOption p rest with
          | none => none
          | some ys => some (y :: ys)

/-- Except-valued analogue of `collect::<Result<Vec<_>, _>>`: map a
fallible function over a list, short-circuiting on the first error. -/
def collectExcept (p : α → Except ε β) : List α → Except ε (List β)
  | [] => Except.ok []
  | x :: rest =>
      match p x with
      | Except.error e => Except.error e
      | Except.ok y =>
          match collectExcept p rest with
          | Except.error e => Except.error e
          | Except.ok ys => Except.ok (y :: ys)

/-- Modelled from the spec: `map_array`, parsing a value as an array and
mapping a fallible element parser over it, failing if any element
fails. -/
def map_array (v : RValue) (p : RValue → Option α) : Option (List α) :=
  match parse_array v with
  | none => none
  | some vs => collectOption p vs

/-! ## `grid_line` (`src/event/grid_line.rs`) -/

/-- A portion of a grid line to draw: the text, the optional highlight
id and the optional repeat count. -/
structure Cell where
  text : String
  hl_id : Option Nat
  «repeat» : Option Nat

/-- `Cell::parse`: iterate over the cell's array; `text` is required
(`iter.next()?`), `hl_id` and `repeat` are the next two elements when
present (`iter.next()` assigned directly to the optional fields). -/
def Cell.parse (v : RValue) : Option Cell :=
  match parse_array v with
  | none => none
  | some l =>
      let (t, l) := iterNext l parse_string
      match t with
      | none => none
      | some text =>
          let (h, l) := iterNext l parse_u64
          let (rep, _) := iterNext l parse_u64
          some ⟨text, h, rep⟩

/-- Redraw a continuous part of a row on a grid. -/
structure GridLine where
  grid : Nat
  row : Nat
  col_start : Nat
  cells : List Cell

/-- `GridLine::parse`: iterate over the parameter array; `grid`, `row`
and `col_start` are required integers, `cells` is the required fourth
element parsed as an array of cells. -/
def GridLine.parse (v : RValue) : Option GridLine :=
  match parse_array v with
  | none => none
  | some l =>
      let (g, l) := iterNext l parse_u64
      match g with
      | none => none
      | some grid =>
          let (rw, l) := iterNext l parse_u64
          match rw with
          | none => none
          | some row =>
              let (cs, l) := iterNext l parse_u64
              match cs with
              | none => none
              | some col_start =>
                  let (cv, _) := iterNext l some
                  match cv with
                  | none => none
                  | some cellsVal =>
                      match map_array cellsVal Cell.parse with
                      | none => none
                      | some cells => some ⟨grid, row, col_start, cells⟩

/-! ## `hl_attr_define` (`src/event/hl_attr_define.rs`) -/

/-- `HlAttrDefineParseError`: one variant per entity whose parsing can
fail.  The source variant names are `HlAttr`, `Attributes`, `Info` and
`Kind`. -/
inductive HlAttrDefineParseErr where
  | hlAttrErr
  | attributesErr
  | infoErr
  | kindErr
deriving DecidableEq

/-- The semantic kind of a highlight: the source variants are `Ui`,
`Syntax` and `Terminal`. -/
inductive Kind where
  | uiKind
  | syntaxKind
  | terminalKind
deriving DecidableEq

/-- `impl TryFrom<Value> for Kind`: parse a string and match it against
the three recognized kinds; anything else is the kind-specific error. -/
def Kind.try_from (v : RValue) : Except HlAttrDefineParseErr Kind :=
  let inner : Option Kind :=
    match parse_string v with
    | none => none
    | some s =>
        match s with
        | "ui" => some Kind.uiKind
        | "syntax" => some Kind.syntaxKind
        | "terminal" => some Kind.terminalKind
        | _ => none
  match inner with
  | some k => Except.ok k
  | none => Except.error HlAttrDefineParseErr.kindErr

/-- A semantic description of the highlights active in a cell. -/
structure Info where
  kind : Kind
  ui_name : Option String
  hi_name : Option String
  id : Option Nat

/-- The fold inside `impl TryFrom<Value> for Info`: walk the map entries
updating the four accumulators; a non-string key or an ill-typed value
under a known key is the info error, an error from `Kind::try_from` is
propagated as is, and an unrecognized key is logged and skipped. -/
def infoFold : List (RValue × RValue) → Option Kind → Option String →
    Option String → Option Nat →
    Except HlAttrDefineParseErr
      (Option Kind × Option String × Option String × Option Nat)
  | [], kind, ui_name, hi_name, id => Except.ok (kind, ui_name, hi_name, id)
  | (k, v) :: rest, kind, ui_name, hi_name, id =>
      match parse_string k with
      | none => Except.error HlAttrDefineParseErr.infoErr
      | some key =>
          match key with
          | "kind" =>
              match Kind.try_from v with
              | Except.ok kd => infoFold rest (some kd) ui_name hi_name id
              | Except.error e => Except.error e
          | "ui_name" =>
              match parse_string v with
              | some s => infoFold rest kind (some s) hi_name id
              | none => Except.error HlAttrDefineParseErr.infoErr
          | "hi_name" =>
              match parse_string v with
              | some s => infoFold rest kind ui_name (some s) id
              | none => Except.error HlAttrDefineParseErr.infoErr
          | "id" =>
              match parse_u64 v with
              | some n => infoFold rest kind ui_name hi_name (some n)
              | none => Except.error HlAttrDefineParseErr.infoErr
          | _ => infoFold rest kind ui_name hi_name id

/-- `impl TryFrom<Value> for Info`: parse the value as a map, fold over
its entries, and require that a kind was seen. -/
def Info.try_from (v : RValue) : Except HlAttrDefineParseErr Info :=
  match parse_map v with
  | none => Except.error HlAttrDefineParseErr.infoErr
  | some ps =>
      match infoFold ps none none none none with
      | Except.error e => Except.error e
      | Except.ok (kind, ui_name, hi_name, id) =>
          match kind with
          | none => Except.error HlAttrDefineParseErr.infoErr
          | some kd => Except.ok ⟨kd, ui_name, hi_name, id⟩

/-- The highlight attribute set: one optional field per recognized
attribute key. -/
structure Attributes where
  foreground : Option Nat := none
  background : Option Nat := none
  special : Option Nat := none
  reverse : Option Bool := none
  italic : Option Bool := none
  bold : Option Bool := none
  strikethrough : Option Bool := none
  underline : Option Bool := none
  undercurl : Option Bool := none
  underdouble : Option Bool := none
  underdotted : Option Bool := none
  underdashed : Option Bool := none
  altfont : Option Bool := none
  blend : Option Nat := none

/-- The attribute keys recognized by `Attributes::try_from`. -/
def isKnownAttrKey (s : String) : Bool :=
  s = "foreground" || s = "background" || s = "special" || s = "reverse" ||
    s = "italic" || s = "bold" || s = "strikethrough" || s = "underline" ||
    s = "undercurl" || s = "underdouble" || s = "underdotted" ||
    s = "underdashed" || s = "altfont" || s = "blend"

/-- The fold inside `impl TryFrom<Value> for Attributes`: walk the map
entries updating the accumulator; a non-string key or an ill-typed value
under a known key fails the whole closure, an unrecognized key is
printed (`eprintln!`) and skipped.  The printed keys are returned
alongside the result, modelling the log output. -/
def attributesFold (out : Attributes) :
    List (RValue × RValue) → Option (Attributes × List String)
  | [] => some (out, [])
  | (k, v) :: rest =>
      match parse_string k with
      | none => none
      | some key =>
          match key with
          | "foreground" =>
              match parse_u64 v with
              | some n => attributesFold { out with foreground := some n } rest
              | none => none
          | "background" =>
              match parse_u64 v with
              | some n => attributesFold { out with background := some n } rest
              | none => none
          | "special" =>
              match parse_u64 v with
              | some n => attributesFold { out with special := some n } rest
              | none => none
          | "reverse" =>
              match parse_bool v with
              | some b => attributesFold { out with reverse := some b } rest
              | none => none
          | "italic" =>
              match parse_bool v with
              | some b => attributesFold { out with italic := some b } rest
              | none => none
          | "bold" =>
              match parse_bool v with
              | some b => attributesFold { out with bold := some b } rest
              | none => none
          | "strikethrough" =>
              match parse_bool v with
              | some b =>
                  attributesFold { out with strikethrough := some b } rest
              | none => none
          | "underline" =>
              match parse_bool v with
              | some b => attributesFold { out with underline := some b } rest
              | none => none
          | "undercurl" =>
              match parse_bool v with
              | some b => attributesFold { out with undercurl := some b } rest
              | none => none
          | "underdouble" =>
              match parse_bool v with
              | some b => attributesFold { out with underdouble := some b } rest
              | none => none
          | "underdotted" =>
              match parse_bool v with
              | some b => attributesFold { out with underdotted := some b } rest
              | none => none
          | "underdashed" =>
              match parse_bool v with
              | some b => attributesFold { out with underdashed := some b } rest
              | none => none
          | "altfont" =>
              match parse_bool v with
              | some b => attributesFold { out with altfont := some b } rest
              | none => none
          | "blend" =>
              match parse_u64 v with
              | some n => attributesFold { out with blend := some n } rest
              | none => none
          | _ =>
              match attributesFold out rest with
              | some (o, logs) => some (o, key :: logs)
              | none => none

/-- `impl TryFrom<Value> for Attributes`: parse the value as a map and
run the fold from the default (all-absent) attribute set; any failure of
the inner closure is the attributes error. -/
def Attributes.try_from (v : RValue) : Except HlAttrDefineParseErr Attributes :=
  match parse_map v with
  | none => Except.error HlAttrDefineParseErr.attributesErr
  | some ps =>
      match attributesFold {} ps with
      | some (o, _) => Except.ok o
      | none => Except.error HlAttrDefineParseErr.attributesErr

/-- Add a highlight with id to the highlight table. -/
structure HlAttr where
  id : Nat
  rgb_attr : Attributes
  cterm_attr : Attributes
  info : List Info

/-- `impl TryFrom<Value> for HlAttr`: the value is an array of at least
four elements; the first parses as the id, the second and third as
attribute sets (their errors propagate as is), the fourth as an array of
infos (each info's error propagates as is); a missing element or an
ill-typed id or info array is the hl-attr error. -/
def HlAttr.try_from (v : RValue) : Except HlAttrDefineParseErr HlAttr :=
  match parse_array v with
  | none => Except.error HlAttrDefineParseErr.hlAttrErr
  | some l =>
      match l with
      | a :: b :: c :: d :: _ =>
          match parse_u64 a with
          | none => Except.error HlAttrDefineParseErr.hlAttrErr
          | some id =>
              match Attributes.try_from b with
              | Except.error e => Except.error e
              | Except.ok rgb_attr =>
                  match Attributes.try_from c with
                  | Except.error e => Except.error e
                  | Except.ok cterm_attr =>
                      match parse_array d with
                      | none => Except.error HlAttrDefineParseErr.hlAttrErr
                      | some infos =>
                          match collectExcept Info.try_from infos with
                          | Except.error e => Except.error e
                          | Except.ok info =>
                              Except.ok ⟨id, rgb_attr, cterm_attr, info⟩
      | _ => Except.error HlAttrDefineParseErr.hlAttrErr

/-- The `hl_attr_define` event: the list of highlight definitions. -/
structure HlAttrDefine where
  hl_attrs : List HlAttr

/-- `impl TryFrom<IntoIter<Value>> for HlAttrDefine`: parse every
notification argument as an `HlAttr`, failing on the first failure. -/
def HlAttrDefine.try_from (values : List RValue) :
    Except HlAttrDefineParseErr HlAttrDefine :=
  match collectExcept HlAttr.try_from values with
  | Except.error e => Except.error e
  | Except.ok hl_attrs => Except.ok ⟨hl_attrs⟩

/-! ## The event registry -/

/-- Modelled from the spec (§4.2/§7: the event module root holding the
name-to-constructor registry is absent from the source tree): the closed
event union, restricted to the variants whose parsers are part of the
sources modelled here. -/
inductive Event where
  | gridLine (g : GridLine)
  | hlAttrDefine (h : HlAttrDefine)

/-- Modelled from the spec: dispatch one notification through the
name-to-constructor registry; a decode failure of the event is caught
(logged) and yields no event. -/
def decodeNotification (name : String) (params : List RValue) :
    Option Event :=
  match name with
  | "grid_line" =>
      match params with
      | [v] =>
          match GridLine.parse v with
          | some g => some (Event.gridLine g)
          | none => none
      | _ => none
  | "hl_attr_define" =>
      match HlAttrDefine.try_from params with
      | Except.ok h => some (Event.hlAttrDefine h)
      | Except.error _ => none
  | _ => none

/-- Modelled from the spec (§7: per-event decode errors are caught,
logged and the offending event dropped without aborting the batch): the
events of a batch that decode successfully, in order. -/
def decodeBatch (ns : List (String × List RValue)) : List Event :=
  ns.filterMap (fun p => decodeNotification p.1 p.2)

/-- The attribute keys whose value parses as an integer. -/
def isU64AttrKey (s : String) : Bool :=
  s = "foreground" || s = "background" || s = "special" || s = "blend"

/-- The attribute keys whose value parses as a boolean. -/
def isBoolAttrKey (s : String) : Bool :=
  s = "reverse" || s = "italic" || s = "bold" || s = "strikethrough" ||
    s = "underline" || s = "undercurl" || s = "underdouble" ||
    s = "underdotted" || s = "underdashed" || s = "altfont"

/-- Well-formedness of one attribute-map entry, as claim C9 assumes it:
the key is a string, and when the key is recognized its value has the
type the decoder expects (an unrecognized key constrains nothing). -/
def attrEntryOk (p : RValue × RValue) : Bool :=
  match p.1 with
  | RValue.str s =>
      if isU64AttrKey s then (parse_u64 p.2).isSome
      else if isBoolAttrKey s then (parse_bool p.2).isSome
      else true
  | _ => false

/-- Whether the entry's key is one of the recognized attribute keys. -/
def attrEntryKnown (p : RValue × RValue) : Bool :=
  match p.1 with
  | RValue.str s => isKnownAttrKey s
  | _ => false

/-- The unrecognized keys of an attribute map, in order: exactly the
keys `Attributes::try_from` prints and skips. -/
def unknownAttrKeys (ps : List (RValue × RValue)) : List String :=
  ps.filterMap (fun p =>
    match p.1 with
    | RValue.str s => if isKnownAttrKey s then none else some s
    | _ => none)

/-! ## Helper lemmas -/

/-- Bits disjoint from a mask do not change a masked value. -/
theorem landLorZero (m a c : Nat) (h : a &&& c = 0) :
    (m ||| a) &&& c = m &&& c := by
  apply Nat.eq_of_testBit_eq
  intro i
  have h2 : (a &&& c).testBit i = false := by rw [h]; exact Nat.zero_testBit i
  rw [Nat.testBit_and] at h2
  rw [Nat.testBit_and, Nat.testBit_and, Nat.testBit_or]
  cases hc : c.testBit i with
  | false => simp
  | true =>
      rw [hc, Bool.and_true] at h2
      simp [h2]

/-- Masking a disjunction with one of its operands yields that
operand. -/
theorem lorLandSelf (m a : Nat) : (m ||| a) &&& a = a := by
  apply Nat.eq_of_testBit_eq
  intro i
  rw [Nat.testBit_and, Nat.testBit_or]
  cases a.testBit i <;> simp

/-- Setting the logo bit changes none of the three encoded flags. -/
theorem with_logo_preserves_flags (m : Modifiers) (b : Bool) :
    (m.with_logo b).ctrl = m.ctrl ∧ (m.with_logo b).shift = m.shift ∧
      (m.with_logo b).alt = m.alt := by
  cases b with
  | false =>
      simp [Modifiers.with_logo, Modifiers.LOGO]
  | true =>
      refine ⟨?_, ?_, ?_⟩ <;>
        simp only [Modifiers.with_logo, Modifiers.ctrl, Modifiers.shift,
          Modifiers.alt, Modifiers.LOGO, Modifiers.CTRL, Modifiers.SHIFT,
          Modifiers.ALT, Bool.toNat_true, Nat.mul_one] <;>
        rw [landLorZero m.bits 8 _ (by decide)]

/-- The counter values drawn by a sequence of calls, relative to the
starting counter. -/
theorem runCalls_ids (calls : List (String × List RValue)) :
    ∀ st : NeovimState, (st.runCalls calls).1 =
      List.range' st.next_msgid calls.length := by
  induction calls with
  | nil => intro st; simp [NeovimState.runCalls]
  | cons c rest ih =>
      intro st
      obtain ⟨m, a⟩ := c
      simp only [NeovimState.runCalls, NeovimState.call, List.length_cons,
        List.range'_succ]
      rw [ih]

/-! ## Claim theorems -/

/-- C7: parsing a `grid_line` notification with parameter array
`[1, 0, 0, [["a", 5, 2]]]` succeeds and yields a `GridLine` with grid 1,
row 0, col_start 0 and exactly one cell whose text is "a", highlight id
`some 5` and repeat count `some 2`; the registry dispatch produces the
corresponding event. -/
theorem c7_grid_line_example :
    GridLine.parse
        (RValue.arr [RValue.int 1, RValue.int 0, RValue.int 0,
          RValue.arr [RValue.arr [RValue.str "a", RValue.int 5,
            RValue.int 2]]]) =
      some ⟨1, 0, 0, [⟨"a", some 5, some 2⟩]⟩ ∧
    decodeNotification "grid_line"
        [RValue.arr [RValue.int 1, RValue.int 0, RValue.int 0,
          RValue.arr [RValue.arr [RValue.str "a", RValue.int 5,
            RValue.int 2]]]] =
      some (Event.gridLine ⟨1, 0, 0, [⟨"a", some 5, some 2⟩]⟩) :=
  ⟨rfl, rfl⟩

/-- C10: the string encoding of a `Modifiers` value is built only from
the ctrl ("C"), shift ("S") and alt ("A") flags in that fixed order; the
logo modifier is settable via `with_logo` and queryable via `logo`, yet
never affects the encoded string, so two values differing only in the
logo bit encode identically. -/
theorem c10_logo_not_encoded :
    (∀ (m : Modifiers) (b : Bool),
        (m.with_logo b).toEncodedString = m.toEncodedString) ∧
    (∀ m : Modifiers,
        m.toEncodedString = (if m.ctrl then "C" else "") ++
          (if m.shift then "S" else "") ++ (if m.alt then "A" else "")) ∧
    (∀ m : Modifiers, (m.with_logo true).logo = true) ∧
    (∀ m₁ m₂ : Modifiers, m₁.ctrl = m₂.ctrl → m₁.shift = m₂.shift →
        m₁.alt = m₂.alt → m₁.toEncodedString = m₂.toEncodedString) := by
  have henc : ∀ m₁ m₂ : Modifiers, m₁.ctrl = m₂.ctrl → m₁.shift = m₂.shift →
      m₁.alt = m₂.alt → m₁.toEncodedString = m₂.toEncodedString := by
    intro m₁ m₂ hc hs ha
    simp [Modifiers.toEncodedString, hc, hs, ha]
  refine ⟨?_, ?_, ?_, henc⟩
  · intro m b
    obtain ⟨hc, hs, ha⟩ := with_logo_preserves_flags m b
    exact henc _ _ hc hs ha
  · intro m; rfl
  · intro m
    simp only [Modifiers.with_logo, Modifiers.logo, Modifiers.LOGO,
      Bool.toNat_true, Nat.mul_one]
    rw [lorLandSelf]
    decide

/-- C10 witness: two concrete modifier values differing only in the logo
bit (ctrl+logo versus ctrl) encode to the same string. -/
theorem c10_logo_not_encoded_witness :
    Modifiers.ctrl ⟨9⟩ = Modifiers.ctrl ⟨1⟩ ∧
      Modifiers.toEncodedString ⟨9⟩ = Modifiers.toEncodedString ⟨1⟩ :=
  ⟨by decide, c10_logo_not_encoded.2.2.2 ⟨9⟩ ⟨1⟩ (by decide) (by decide)
    (by decide)⟩

/-- C3 counterexample: the first call on a fresh session returns msgid 0
but leaves `Incoming.requests` (PendingRequests) empty: `call` never
pushes the msgid it returns onto the stack, contradicting the claim that
it does.  (`push_request` runs only on the reader thread, for requests
initiated by the subprocess.) -/
theorem c3_counterexample :
    (NeovimState.init.call "nvim_input" []).1 = 0 ∧
    (NeovimState.init.call "nvim_input" []).2.incoming.requests = [] ∧
    ¬ ((NeovimState.init.call "nvim_input" []).1 ∈
        (NeovimState.init.call "nvim_input" []).2.incoming.requests) :=
  ⟨rfl, rfl, by simp [NeovimState.call, NeovimState.init, Incoming.new]⟩

/-- C3 amended: `call` draws the next value of the monotonically
increasing counter, builds a `Request` with that msgid, enqueues it for
the writer thread, and returns the msgid immediately; it leaves
`Incoming` (and in particular PendingRequests) untouched — msgids reach
PendingRequests only through `push_request` on the reader thread. -/
theorem c3_call_characterization (st : NeovimState) (method : String)
    (args : List RValue) :
    st.call method args =
      (st.next_msgid,
        ⟨st.next_msgid + 1,
          st.queue ++ [Message.request ⟨st.next_msgid, method, args⟩],
          st.incoming⟩) :=
  rfl

/-- C4: the msgids returned by successive calls on a fresh session are
exactly 0, 1, 2, …: strictly increasing from 0, hence pairwise distinct
and never reused within the session. -/
theorem c4_msgids_distinct_increasing
    (calls : List (String × List RValue)) :
    (NeovimState.runCalls NeovimState.init calls).1 =
        List.range calls.length ∧
    List.Pairwise (· < ·) (NeovimState.runCalls NeovimState.init calls).1 ∧
    (NeovimState.runCalls NeovimState.init calls).1.Nodup := by
  have h : (NeovimState.runCalls NeovimState.init calls).1 =
      List.range calls.length := by
    rw [runCalls_ids]
    rw [List.range_eq_range']
    rfl
  refine ⟨h, ?_, ?_⟩
  · rw [h]; exact List.pairwise_lt_range _
  · rw [h]; exact List.nodup_range _

/-- C5 counterexample: a response bearing msgid 99 arrives on a fresh
session (no request ever issued, nothing buffered).  The claim states
the condition is reported as a ProtocolViolation; the reader instead
emits no error-level report at all (the response with nil error field is
logged at info level only), consults neither the stack nor the buffer,
and leaves the shared state untouched. -/
theorem c5_counterexample :
    (readerRun Incoming.new
        [Message.response ⟨99, RValue.nil, RValue.nil⟩]
        (DecodeError.rmpv
          (RmpvError.invalidMarkerRead IoErrorKind.unexpectedEof))).2.countP
        Effect.isErrorLog = 0 ∧
    (readerRun Incoming.new
        [Message.response ⟨99, RValue.nil, RValue.nil⟩]
        (DecodeError.rmpv
          (RmpvError.invalidMarkerRead IoErrorKind.unexpectedEof))).1 =
      Incoming.new ∧
    (readerRun Incoming.new
        [Message.response ⟨99, RValue.nil, RValue.nil⟩]
        (DecodeError.rmpv
          (RmpvError.invalidMarkerRead IoErrorKind.unexpectedEof))).2 =
      [Effect.logInfoResponse 99 RValue.nil, Effect.callShutdown] :=
  ⟨rfl, rfl, rfl⟩

/-- C5 amended: every response received by the reader thread — matched
or not by any issued request — is logged (at error level exactly when
its error field is non-nil, at info level otherwise), never retried,
never correlated against any pending state, and the reader continues
with the remaining messages without terminating the session. -/
theorem c5_response_logged_and_continues (inc : Incoming) (r : Response)
    (msgs : List Message) (e : DecodeError) :
    readerRun inc (Message.response r :: msgs) e =
      ((readerRun inc msgs e).1,
        (match r.error with
         | RValue.nil => Effect.logInfoResponse r.msgid r.result
         | _ => Effect.logErrorResponse r.msgid r.error) ::
          (readerRun inc msgs e).2) := by
  cases hr : readerRun inc msgs e with
  | mk inc2 effs =>
      simp [readerRun, readerStep, hr]

/-- C6: on any inbound stream, the reader invokes `handle_shutdown`
exactly once, as its very last action; an EOF-kind decode error produces
no decode-failure error log, while any other decode failure (malformed
data, depth limit, parse failure) produces exactly one, placed before
the shutdown call. -/
theorem c6_shutdown_once_eof_silent (inc : Incoming) (msgs : List Message)
    (e : DecodeError) :
    (∃ pre, (readerRun inc msgs e).2 = pre ++ shutdownEffects e ∧
        pre.countP Effect.isShutdown = 0 ∧
        pre.countP Effect.isDecodeErrorLog = 0) ∧
    (readerRun inc msgs e).2.countP Effect.isShutdown = 1 ∧
    (readerRun inc msgs e).2.getLast? = some Effect.callShutdown ∧
    (readerRun inc msgs e).2.countP Effect.isDecodeErrorLog =
      (if e.isEof then 0 else 1) := by
  have hshut : shutdownEffects e ≠ [] := by
    cases he : e.isEof <;> simp [shutdownEffects, he]
  have hcount1 : (shutdownEffects e).countP Effect.isShutdown = 1 := by
    cases he : e.isEof <;>
      simp [shutdownEffects, he, List.countP_cons, Effect.isShutdown]
  have hcount2 : (shutdownEffects e).countP Effect.isDecodeErrorLog =
      (if e.isEof then 0 else 1) := by
    cases he : e.isEof <;>
      simp [shutdownEffects, he, List.countP_cons, Effect.isShutdown,
        Effect.isDecodeErrorLog]
  have hlast : (shutdownEffects e).getLast? = some Effect.callShutdown := by
    cases he : e.isEof <;> simp [shutdownEffects, he]
  induction msgs generalizing inc with
  | nil =>
      refine ⟨⟨[], by simp [readerRun], by simp, by simp⟩, ?_, ?_, ?_⟩
      · simp [readerRun, hcount1]
      · simp [readerRun, hlast]
      · simp [readerRun, hcount2]
  | cons m rest ih =>
      obtain ⟨⟨pre, hpre, hps, hpd⟩, hc1, hl, hc2⟩ := ih (readerStep inc m).1
      have hstep : ∀ eff ∈ (readerStep inc m).2,
          Effect.isShutdown eff = false ∧
            Effect.isDecodeErrorLog eff = false := by
        intro eff heff
        cases m with
        | request r =>
            simp [readerStep] at heff
            rcases heff with h | h <;>
              simp [h, Effect.isShutdown, Effect.isDecodeErrorLog]
        | response r =>
            simp [readerStep] at heff
            cases hre : r.error <;> rw [hre] at heff <;> simp at heff <;>
              simp [heff, Effect.isShutdown, Effect.isDecodeErrorLog]
        | notification n =>
            simp [readerStep] at heff
            simp [heff, Effect.isShutdown, Effect.isDecodeErrorLog]
      have hrun : readerRun inc (m :: rest) e =
          ((readerRun (readerStep inc m).1 rest e).1,
            (readerStep inc m).2 ++ (readerRun (readerStep inc m).1 rest e).2) := by
        cases hs : readerStep inc m with
        | mk inc1 effs =>
            cases hr : readerRun inc1 rest e with
            | mk inc2 effsRest =>
                simp [readerRun, hs, hr]
      have hz1 : ((readerStep inc m).2).countP Effect.isShutdown = 0 := by
        rw [List.countP_eq_zero]
        intro eff heff
        simp [(hstep eff heff).1]
      have hz2 : ((readerStep inc m).2).countP Effect.isDecodeErrorLog = 0 := by
        rw [List.countP_eq_zero]
        intro eff heff
        simp [(hstep eff heff).2]
      refine ⟨⟨(readerStep inc m).2 ++ pre, ?_, ?_, ?_⟩, ?_, ?_, ?_⟩
      · rw [hrun, hpre, List.append_assoc]
      · rw [List.countP_append, hz1, hps]
      · rw [List.countP_append, hz2, hpd]
      · rw [hrun]
        simp only [List.countP_append, hz1, hc1, Nat.zero_add]
      · rw [hrun]
        simp only []
        rw [List.getLast?_append_of_ne_nil _ ?hne]
        · exact hl
        · rw [hpre]
          intro hcontra
          exact hshut (List.append_eq_nil.mp hcontra).2
      · rw [hrun]
        simp only [List.countP_append, hz2, hc2, Nat.zero_add]

/-- Core lemma for C9: on a well-formed attribute map the fold never
fails, its log output is exactly the list of unrecognized keys, and the
attribute set it builds is the one built from the recognized entries
alone. -/
theorem attributesFold_wellFormed :
    ∀ (ps : List (RValue × RValue)) (out : Attributes),
      (∀ p ∈ ps, attrEntryOk p = true) →
      ∃ o, attributesFold out ps = some (o, unknownAttrKeys ps) ∧
        attributesFold out (ps.filter attrEntryKnown) = some (o, []) := by
  intro ps
  induction ps with
  | nil => intro out h; exact ⟨out, rfl, rfl⟩
  | cons p rest ih =>
      intro out h
      obtain ⟨k, v⟩ := p
      have hp := h (k, v) (List.mem_cons_self _ _)
      have hrest : ∀ q ∈ rest, attrEntryOk q = true :=
        fun q hq => h q (List.mem_cons_of_mem _ hq)
      cases k with
      | nil => simp [attrEntryOk] at hp
      | bool b0 => simp [attrEntryOk] at hp
      | int n0 => simp [attrEntryOk] at hp
      | binary bs0 => simp [attrEntryOk] at hp
      | arr vs0 => simp [attrEntryOk] at hp
      | map ps0 => simp [attrEntryOk] at hp
      | str s =>
          by_cases hk1 : s = "foreground"
          · subst hk1
            simp [attrEntryOk, isU64AttrKey, isBoolAttrKey] at hp
            obtain ⟨n, hn⟩ := Option.isSome_iff_exists.mp hp
            obtain ⟨o, hA, hB⟩ := ih { out with foreground := some n } hrest
            refine ⟨o, ?_, ?_⟩
            · rw [show attributesFold out ((RValue.str "foreground", v) :: rest) =
                  attributesFold { out with foreground := some n } rest from by
                    simp [attributesFold, parse_string, hn]]
              rw [hA]
              simp [unknownAttrKeys, isKnownAttrKey]
            · rw [show ((RValue.str "foreground", v) :: rest).filter attrEntryKnown =
                  (RValue.str "foreground", v) :: rest.filter attrEntryKnown from by
                    simp [List.filter, attrEntryKnown, isKnownAttrKey]]
              rw [show attributesFold out
                    ((RValue.str "foreground", v) :: rest.filter attrEntryKnown) =
                  attributesFold { out with foreground := some n }
                    (rest.filter attrEntryKnown) from by
                    simp [attributesFold, parse_string, hn]]
              exact hB
          · -- s is not "foreground"
            by_cases hk2 : s = "background"
            · subst hk2
              simp [attrEntryOk, isU64AttrKey, isBoolAttrKey] at hp
              obtain ⟨n, hn⟩ := Option.isSome_iff_exists.mp hp
              obtain ⟨o, hA, hB⟩ := ih { out with background := some n } hrest
              refine ⟨o, ?_, ?_⟩
              · rw [show attributesFold out ((RValue.str "background", v) :: rest) =
                    attributesFold { out with background := some n } rest from by
                      simp [attributesFold, parse_string, hn]]
                rw [hA]
                simp [unknownAttrKeys, isKnownAttrKey]
              · rw [show ((RValue.str "background", v) :: rest).filter attrEntryKnown =
                    (RValue.str "background", v) :: rest.filter attrEntryKnown from by
                      simp [List.filter, attrEntryKnown, isKnownAttrKey]]
                rw [show attributesFold out
                      ((RValue.str "background", v) :: rest.filter attrEntryKnown) =
                    attributesFold { out with background := some n }
                      (rest.filter attrEntryKnown) from by
                      simp [attributesFold, parse_string, hn]]
                exact hB
            · -- s is not "background"
              by_cases hk3 : s = "special"
              · subst hk3
                simp [attrEntryOk, isU64AttrKey, isBoolAttrKey] at hp
                obtain ⟨n, hn⟩ := Option.isSome_iff_exists.mp hp
                obtain ⟨o, hA, hB⟩ := ih { out with special := some n } hrest
                refine ⟨o, ?_, ?_⟩
                · rw [show attributesFold out ((RValue.str "special", v) :: rest) =
                      attributesFold { out with special := some n } rest from by
                        simp [attributesFold, parse_string, hn]]
                  rw [hA]
                  simp [unknownAttrKeys, isKnownAttrKey]
                · rw [show ((RValue.str "special", v) :: rest).filter attrEntryKnown =
                      (RValue.str "special", v) :: rest.filter attrEntryKnown from by
                        simp [List.filter, attrEntryKnown, isKnownAttrKey]]
                  rw [show attributesFold out
                        ((RValue.str "special", v) :: rest.filter attrEntryKnown) =
                      attributesFold { out with special := some n }
                        (rest.filter attrEntryKnown) from by
                        simp [attributesFold, parse_string, hn]]
                  exact hB
              · -- s is not "special"
                by_cases hk4 : s = "reverse"
                · subst hk4
                  simp [attrEntryOk, isU64AttrKey, isBoolAttrKey] at hp
                  obtain ⟨b, hn⟩ := Option.isSome_iff_exists.mp hp
                  obtain ⟨o, hA, hB⟩ := ih { out with reverse := some b } hrest
                  refine ⟨o, ?_, ?_⟩
                  · rw [show attributesFold out ((RValue.str "reverse", v) :: rest) =
                        attributesFold { out with reverse := some b } rest from by
                          simp [attributesFold, parse_string, hn]]
                    rw [hA]
                    simp [unknownAttrKeys, isKnownAttrKey]
                  · rw [show ((RValue.str "reverse", v) :: rest).filter attrEntryKnown =
                        (RValue.str "reverse", v) :: rest.filter attrEntryKnown from by
                          simp [List.filter, attrEntryKnown, isKnownAttrKey]]
                    rw [show attributesFold out
                          ((RValue.str "reverse", v) :: rest.filter attrEntryKnown) =
                        attributesFold { out with reverse := some b }
                          (rest.filter attrEntryKnown) from by
                          simp [attributesFold, parse_string, hn]]
                    exact hB
                · -- s is not "reverse"
                  by_cases hk5 : s = "italic"
                  · subst hk5
                    simp [attrEntryOk, isU64AttrKey, isBoolAttrKey] at hp
                    obtain ⟨b, hn⟩ := Option.isSome_iff_exists.mp hp
                    obtain ⟨o, hA, hB⟩ := ih { out with italic := some b } hrest
                    refine ⟨o, ?_, ?_⟩
                    · rw [show attributesFold out ((RValue.str "italic", v) :: rest) =
                          attributesFold { out with italic := some b } rest from by
                            simp [attributesFold, parse_string, hn]]
                      rw [hA]
                      simp [unknownAttrKeys, isKnownAttrKey]
                    · rw [show ((RValue.str "italic", v) :: rest).filter attrEntryKnown =
                          (RValue.str "italic", v) :: rest.filter attrEntryKnown from by
                            simp [List.filter, attrEntryKnown, isKnownAttrKey]]
                      rw [show attributesFold out
                            ((RValue.str "italic", v) :: rest.filter attrEntryKnown) =
                          attributesFold { out with italic := some b }
                            (rest.filter attrEntryKnown) from by
                            simp [attributesFold, parse_string, hn]]
                      exact hB
                  · -- s is not "italic"
                    by_cases hk6 : s = "bold"
                    · subst hk6
                      simp [attrEntryOk, isU64AttrKey, isBoolAttrKey] at hp
                      obtain ⟨b, hn⟩ := Option.isSome_iff_exists.mp hp
                      obtain ⟨o, hA, hB⟩ := ih { out with bold := some b } hrest
                      refine ⟨o, ?_, ?_⟩
                      · rw [show attributesFold out ((RValue.str "bold", v) :: rest) =
                            attributesFold { out with bold := some b } rest from by
                              simp [attributesFold, parse_string, hn]]
                        rw [hA]
                        simp [unknownAttrKeys, isKnownAttrKey]
                      · rw [show ((RValue.str "bold", v) :: rest).filter attrEntryKnown =
                            (RValue.str "bold", v) :: rest.filter attrEntryKnown from by
                              simp [List.filter, attrEntryKnown, isKnownAttrKey]]
                        rw [show attributesFold out
                              ((RValue.str "bold", v) :: rest.filter attrEntryKnown) =
                            attributesFold { out with bold := some b }
                              (rest.filter attrEntryKnown) from by
                              simp [attributesFold, parse_string, hn]]
                        exact hB
                    · -- s is not "bold"
                      by_cases hk7 : s = "strikethrough"
                      · subst hk7
                        simp [attrEntryOk, isU64AttrKey, isBoolAttrKey] at hp
                        obtain ⟨b, hn⟩ := Option.isSome_iff_exists.mp hp
                        obtain ⟨o, hA, hB⟩ := ih { out with strikethrough := some b } hrest
                        refine ⟨o, ?_, ?_⟩
                        · rw [show attributesFold out ((RValue.str "strikethrough", v) :: rest) =
                              attributesFold { out with strikethrough := some b } rest from by
                                simp [attributesFold, parse_string, hn]]
                          rw [hA]
                          simp [unknownAttrKeys, isKnownAttrKey]
                        · rw [show ((RValue.str "strikethrough", v) :: rest).filter attrEntryKnown =
                              (RValue.str "strikethrough", v) :: rest.filter attrEntryKnown from by
                                simp [List.filter, attrEntryKnown, isKnownAttrKey]]
                          rw [show attributesFold out
                                ((RValue.str "strikethrough", v) :: rest.filter attrEntryKnown) =
                              attributesFold { out with strikethrough := some b }
                                (rest.filter attrEntryKnown) from by
                                simp [attributesFold, parse_string, hn]]
                          exact hB
                      · -- s is not "strikethrough"
                        by_cases hk8 : s = "underline"
                        · subst hk8
                          simp [attrEntryOk, isU64AttrKey, isBoolAttrKey] at hp
                          obtain ⟨b, hn⟩ := Option.isSome_iff_exists.mp hp
                          obtain ⟨o, hA, hB⟩ := ih { out with underline := some b } hrest
                          refine ⟨o, ?_, ?_⟩
                          · rw [show attributesFold out ((RValue.str "underline", v) :: rest) =
                                attributesFold { out with underline := some b } rest from by
                                  simp [attributesFold, parse_string, hn]]
                            rw [hA]
                            simp [unknownAttrKeys, isKnownAttrKey]
                          · rw [show ((RValue.str "underline", v) :: rest).filter attrEntryKnown =
                                (RValue.str "underline", v) :: rest.filter attrEntryKnown from by
                                  simp [List.filter, attrEntryKnown, isKnownAttrKey]]
                            rw [show attributesFold out
                                  ((RValue.str "underline", v) :: rest.filter attrEntryKnown) =
                                attributesFold { out with underline := some b }
                                  (rest.filter attrEntryKnown) from by
                                  simp [attributesFold, parse_string, hn]]
                            exact hB
                        · -- s is not "underline"
                          by_cases hk9 : s = "undercurl"
                          · subst hk9
                            simp [attrEntryOk, isU64AttrKey, isBoolAttrKey] at hp
                            obtain ⟨b, hn⟩ := Option.isSome_iff_exists.mp hp
                            obtain ⟨o, hA, hB⟩ := ih { out with undercurl := some b } hrest
                            refine ⟨o, ?_, ?_⟩
                            · rw [show attributesFold out ((RValue.str "undercurl", v) :: rest) =
                                  attributesFold { out with undercurl := some b } rest from by
                                    simp [attributesFold, parse_string, hn]]
                              rw [hA]
                              simp [unknownAttrKeys, isKnownAttrKey]
                            · rw [show ((RValue.str "undercurl", v) :: rest).filter attrEntryKnown =
                                  (RValue.str "undercurl", v) :: rest.filter attrEntryKnown from by
                                    simp [List.filter, attrEntryKnown, isKnownAttrKey]]
                              rw [show attributesFold out
                                    ((RValue.str "undercurl", v) :: rest.filter attrEntryKnown) =
                                  attributesFold { out with undercurl := some b }
                                    (rest.filter attrEntryKnown) from by
                                    simp [attributesFold, parse_string, hn]]
                              exact hB
                          · -- s is not "undercurl"
                            by_cases hk10 : s = "underdouble"
                            · subst hk10
                              simp [attrEntryOk, isU64AttrKey, isBoolAttrKey] at hp
                              obtain ⟨b, hn⟩ := Option.isSome_iff_exists.mp hp
                              obtain ⟨o, hA, hB⟩ := ih { out with underdouble := some b } hrest
                              refine ⟨o, ?_, ?_⟩
                              · rw [show attributesFold out ((RValue.str "underdouble", v) :: rest) =
                                    attributesFold { out with underdouble := some b } rest from by
                                      simp [attributesFold, parse_string, hn]]
                                rw [hA]
                                simp [unknownAttrKeys, isKnownAttrKey]
                              · rw [show ((RValue.str "underdouble", v) :: rest).filter attrEntryKnown =
                                    (RValue.str "underdouble", v) :: rest.filter attrEntryKnown from by
                                      simp [List.filter, attrEntryKnown, isKnownAttrKey]]
                                rw [show attributesFold out
                                      ((RValue.str "underdouble", v) :: rest.filter attrEntryKnown) =
                                    attributesFold { out with underdouble := some b }
                                      (rest.filter attrEntryKnown) from by
                                      simp [attributesFold, parse_string, hn]]
                                exact hB
                            · -- s is not "underdouble"
                              by_cases hk11 : s = "underdotted"
                              · subst hk11
                                simp [attrEntryOk, isU64AttrKey, isBoolAttrKey] at hp
                                obtain ⟨b, hn⟩ := Option.isSome_iff_exists.mp hp
                                obtain ⟨o, hA, hB⟩ := ih { out with underdotted := some b } hrest
                                refine ⟨o, ?_, ?_⟩
                                · rw [show attributesFold out ((RValue.str "underdotted", v) :: rest) =
                                      attributesFold { out with underdotted := some b } rest from by
                                        simp [attributesFold, parse_string, hn]]
                                  rw [hA]
                                  simp [unknownAttrKeys, isKnownAttrKey]
                                · rw [show ((RValue.str "underdotted", v) :: rest).filter attrEntryKnown =
                                      (RValue.str "underdotted", v) :: rest.filter attrEntryKnown from by
                                        simp [List.filter, attrEntryKnown, isKnownAttrKey]]
                                  rw [show attributesFold out
                                        ((RValue.str "underdotted", v) :: rest.filter attrEntryKnown) =
                                      attributesFold { out with underdotted := some b }
                                        (rest.filter attrEntryKnown) from by
                                        simp [attributesFold, parse_string, hn]]
                                  exact hB
                              · -- s is not "underdotted"
                                by_cases hk12 : s = "underdashed"
                                · subst hk12
                                  simp [attrEntryOk, isU64AttrKey, isBoolAttrKey] at hp
                                  obtain ⟨b, hn⟩ := Option.isSome_iff_exists.mp hp
                                  obtain ⟨o, hA, hB⟩ := ih { out with underdashed := some b } hrest
                                  refine ⟨o, ?_, ?_⟩
                                  · rw [show attributesFold out ((RValue.str "underdashed", v) :: rest) =
                                        attributesFold { out with underdashed := some b } rest from by
                                          simp [attributesFold, parse_string, hn]]
                                    rw [hA]
                                    simp [unknownAttrKeys, isKnownAttrKey]
                                  · rw [show ((RValue.str "underdashed", v) :: rest).filter attrEntryKnown =
                                        (RValue.str "underdashed", v) :: rest.filter attrEntryKnown from by
                                          simp [List.filter, attrEntryKnown, isKnownAttrKey]]
                                    rw [show attributesFold out
                                          ((RValue.str "underdashed", v) :: rest.filter attrEntryKnown) =
                                        attributesFold { out with underdashed := some b }
                                          (rest.filter attrEntryKnown) from by
                                          simp [attributesFold, parse_string, hn]]
                                    exact hB
                                · -- s is not "underdashed"
                                  by_cases hk13 : s = "altfont"
                                  · subst hk13
                                    simp [attrEntryOk, isU64AttrKey, isBoolAttrKey] at hp
                                    obtain ⟨b, hn⟩ := Option.isSome_iff_exists.mp hp
                                    obtain ⟨o, hA, hB⟩ := ih { out with altfont := some b } hrest
                                    refine ⟨o, ?_, ?_⟩
                                    · rw [show attributesFold out ((RValue.str "altfont", v) :: rest) =
                                          attributesFold { out with altfont := some b } rest from by
                                            simp [attributesFold, parse_string, hn]]
                                      rw [hA]
                                      simp [unknownAttrKeys, isKnownAttrKey]
                                    · rw [show ((RValue.str "altfont", v) :: rest).filter attrEntryKnown =
                                          (RValue.str "altfont", v) :: rest.filter attrEntryKnown from by
                                            simp [List.filter, attrEntryKnown, isKnownAttrKey]]
                                      rw [show attributesFold out
                                            ((RValue.str "altfont", v) :: rest.filter attrEntryKnown) =
                                          attributesFold { out with altfont := some b }
                                            (rest.filter attrEntryKnown) from by
                                            simp [attributesFold, parse_string, hn]]
                                      exact hB
                                  · -- s is not "altfont"
                                    by_cases hk14 : s = "blend"
                                    · subst hk14
                                      simp [attrEntryOk, isU64AttrKey, isBoolAttrKey] at hp
                                      obtain ⟨n, hn⟩ := Option.isSome_iff_exists.mp hp
                                      obtain ⟨o, hA, hB⟩ := ih { out with blend := some n } hrest
                                      refine ⟨o, ?_, ?_⟩
                                      · rw [show attributesFold out ((RValue.str "blend", v) :: rest) =
                                            attributesFold { out with blend := some n } rest from by
                                              simp [attributesFold, parse_string, hn]]
                                        rw [hA]
                                        simp [unknownAttrKeys, isKnownAttrKey]
                                      · rw [show ((RValue.str "blend", v) :: rest).filter attrEntryKnown =
                                            (RValue.str "blend", v) :: rest.filter attrEntryKnown from by
                                              simp [List.filter, attrEntryKnown, isKnownAttrKey]]
                                        rw [show attributesFold out
                                              ((RValue.str "blend", v) :: rest.filter attrEntryKnown) =
                                            attributesFold { out with blend := some n }
                                              (rest.filter attrEntryKnown) from by
                                              simp [attributesFold, parse_string, hn]]
                                        exact hB
                                    · obtain ⟨o, hA, hB⟩ := ih out hrest
                                      refine ⟨o, ?_, ?_⟩
                                      · rw [show attributesFold out ((RValue.str s, v) :: rest) =
                                            (match attributesFold out rest with
                                             | some (o, logs) => some (o, s :: logs)
                                             | none => none) from by
                                              simp [attributesFold, parse_string, hk1, hk2, hk3, hk4, hk5, hk6, hk7, hk8, hk9, hk10, hk11, hk12, hk13, hk14]]
                                        rw [hA]
                                        simp [unknownAttrKeys, isKnownAttrKey, hk1, hk2, hk3, hk4, hk5, hk6, hk7, hk8, hk9, hk10, hk11, hk12, hk13, hk14]
                                      · rw [show ((RValue.str s, v) :: rest).filter attrEntryKnown =
                                            rest.filter attrEntryKnown from by
                                              simp [List.filter, attrEntryKnown, isKnownAttrKey, hk1, hk2, hk3, hk4, hk5, hk6, hk7, hk8, hk9, hk10, hk11, hk12, hk13, hk14]]
                                        exact hB

/-- C9: for every well-formed highlight-attribute map (string keys,
correctly typed values under known keys), the presence of unrecognized
keys does not cause decoding to fail: `Attributes::try_from` succeeds,
yields exactly the attribute set built from the recognized entries, and
the unrecognized keys are precisely the ones logged and ignored. -/
theorem c9_unknown_attr_keys_tolerated (ps : List (RValue × RValue))
    (h : ∀ p ∈ ps, attrEntryOk p = true) :
    (Attributes.try_from (RValue.map ps)).isOk = true ∧
    (∃ o logs, attributesFold {} ps = some (o, logs) ∧
      logs = unknownAttrKeys ps ∧
      Attributes.try_from (RValue.map ps) = Except.ok o ∧
      Attributes.try_from (RValue.map (ps.filter attrEntryKnown)) =
        Except.ok o) := by
  obtain ⟨o, hA, hB⟩ := attributesFold_wellFormed ps {} h
  have h1 : Attributes.try_from (RValue.map ps) = Except.ok o := by
    simp [Attributes.try_from, parse_map, hA]
  have h2 : Attributes.try_from (RValue.map (ps.filter attrEntryKnown)) =
      Except.ok o := by
    simp [Attributes.try_from, parse_map, hB]
  exact ⟨by rw [h1]; rfl, o, unknownAttrKeys ps, hA, rfl, h1, h2⟩

/-- C9 witness: an attribute map containing the unrecognized key "bogus"
between two recognized entries decodes successfully, applying both
recognized keys and logging exactly the unknown one. -/
theorem c9_unknown_attr_keys_tolerated_witness :
    (Attributes.try_from (RValue.map
        [(RValue.str "foreground", RValue.int 3),
         (RValue.str "bogus", RValue.str "x"),
         (RValue.str "bold", RValue.bool true)])).isOk = true ∧
    (∃ o logs, attributesFold {}
          [(RValue.str "foreground", RValue.int 3),
           (RValue.str "bogus", RValue.str "x"),
           (RValue.str "bold", RValue.bool true)] = some (o, logs) ∧
      logs = unknownAttrKeys
          [(RValue.str "foreground", RValue.int 3),
           (RValue.str "bogus", RValue.str "x"),
           (RValue.str "bold", RValue.bool true)] ∧
      Attributes.try_from (RValue.map
          [(RValue.str "foreground", RValue.int 3),
           (RValue.str "bogus", RValue.str "x"),
           (RValue.str "bold", RValue.bool true)]) = Except.ok o ∧
      Attributes.try_from (RValue.map
          ([(RValue.str "foreground", RValue.int 3),
            (RValue.str "bogus", RValue.str "x"),
            (RValue.str "bold", RValue.bool true)].filter attrEntryKnown)) =
        Except.ok o) :=
  c9_unknown_attr_keys_tolerated
    [(RValue.str "foreground", RValue.int 3),
     (RValue.str "bogus", RValue.str "x"),
     (RValue.str "bold", RValue.bool true)] (by decide)

/-- C8: a highlight-info entry whose "kind" field is a string other than
"ui", "syntax" or "terminal" fails decoding with the kind-specific error
(`HlAttrDefineParseError::Kind`), the error propagates so that only the
containing `hl_attr_define` event is dropped, and sibling events in the
same batch still decode. -/
theorem c8_unknown_kind_fails (s : String)
    (h : ¬(s = "ui" ∨ s = "syntax" ∨ s = "terminal")) :
    Kind.try_from (RValue.str s) =
      Except.error HlAttrDefineParseErr.kindErr ∧
    Info.try_from (RValue.map [(RValue.str "kind", RValue.str s)]) =
      Except.error HlAttrDefineParseErr.kindErr ∧
    HlAttrDefine.try_from
        [RValue.arr [RValue.int 1, RValue.map [], RValue.map [],
          RValue.arr [RValue.map [(RValue.str "kind", RValue.str s)]]]] =
      Except.error HlAttrDefineParseErr.kindErr ∧
    decodeBatch
        [("grid_line",
          [RValue.arr [RValue.int 1, RValue.int 0, RValue.int 0,
            RValue.arr []]]),
         ("hl_attr_define",
          [RValue.arr [RValue.int 1, RValue.map [], RValue.map [],
            RValue.arr [RValue.map [(RValue.str "kind", RValue.str s)]]]]),
         ("grid_line",
          [RValue.arr [RValue.int 2, RValue.int 3, RValue.int 4,
            RValue.arr []]])] =
      [Event.gridLine ⟨1, 0, 0, []⟩, Event.gridLine ⟨2, 3, 4, []⟩] := by
  have h1 : s ≠ "ui" := fun hh => h (Or.inl hh)
  have h2 : s ≠ "syntax" := fun hh => h (Or.inr (Or.inl hh))
  have h3 : s ≠ "terminal" := fun hh => h (Or.inr (Or.inr hh))
  have hk : Kind.try_from (RValue.str s) =
      Except.error HlAttrDefineParseErr.kindErr := by
    unfold Kind.try_from
    simp only [parse_string]
  have hinfo : Info.try_from
      (RValue.map [(RValue.str "kind", RValue.str s)]) =
      Except.error HlAttrDefineParseErr.kindErr := by
    simp [Info.try_from, infoFold, parse_map, parse_string, hk]
  have hhl : HlAttrDefine.try_from
      [RValue.arr [RValue.int 1, RValue.map [], RValue.map [],
        RValue.arr [RValue.map [(RValue.str "kind", RValue.str s)]]]] =
      Except.error HlAttrDefineParseErr.kindErr := by
    simp [HlAttrDefine.try_from, HlAttr.try_from, collectExcept,
      parse_array, parse_u64, Attributes.try_from, parse_map,
      attributesFold, hinfo]
  have hbad : decodeNotification "hl_attr_define"
      [RValue.arr [RValue.int 1, RValue.map [], RValue.map [],
        RValue.arr [RValue.map [(RValue.str "kind", RValue.str s)]]]] =
      none := by
    simp [decodeNotification, hhl]
  refine ⟨hk, hinfo, hhl, ?_⟩
  have hgl1 : decodeNotification "grid_line"
      [RValue.arr [RValue.int 1, RValue.int 0, RValue.int 0,
        RValue.arr []]] = some (Event.gridLine ⟨1, 0, 0, []⟩) := rfl
  have hgl2 : decodeNotification "grid_line"
      [RValue.arr [RValue.int 2, RValue.int 3, RValue.int 4,
        RValue.arr []]] = some (Event.gridLine ⟨2, 3, 4, []⟩) := rfl
  simp [decodeBatch, List.filterMap_cons, hgl1, hbad, hgl2]

/-- C8 witness: the concrete unrecognized kind string "bogus" fails with
the kind-specific error and leaves its sibling grid-line events
decodable. -/
theorem c8_unknown_kind_fails_witness :
    Kind.try_from (RValue.str "bogus") =
      Except.error HlAttrDefineParseErr.kindErr ∧
    Info.try_from (RValue.map [(RValue.str "kind", RValue.str "bogus")]) =
      Except.error HlAttrDefineParseErr.kindErr ∧
    HlAttrDefine.try_from
        [RValue.arr [RValue.int 1, RValue.map [], RValue.map [],
          RValue.arr [RValue.map
            [(RValue.str "kind", RValue.str "bogus")]]]] =
      Except.error HlAttrDefineParseErr.kindErr ∧
    decodeBatch
        [("grid_line",
          [RValue.arr [RValue.int 1, RValue.int 0, RValue.int 0,
            RValue.arr []]]),
         ("hl_attr_define",
          [RValue.arr [RValue.int 1, RValue.map [], RValue.map [],
            RValue.arr [RValue.map
              [(RValue.str "kind", RValue.str "bogus")]]]]),
         ("grid_line",
          [RValue.arr [RValue.int 2, RValue.int 3, RValue.int 4,
            RValue.arr []]])] =
      [Event.gridLine ⟨1, 0, 0, []⟩, Event.gridLine ⟨2, 3, 4, []⟩] :=
  c8_unknown_kind_fails "bogus" (by decide)

/-- Inversion of a successful `next_ready`: the stack top equals the
released response's msgid, the stack loses its top, and the released
response was the heap's peek. -/
theorem next_ready_some {inc : Incoming} {r : Response} {inc' : Incoming}
    (h : inc.next_ready = some (r, inc')) :
    inc.requests.getLast? = some r.msgid ∧
    inc'.requests = inc.requests.dropLast ∧
    inc.responses = r :: inc'.responses := by
  unfold Incoming.next_ready at h
  rcases hres : inc.responses with _ | ⟨r0, t⟩ <;> rw [hres] at h <;>
    rcases hL : inc.requests.getLast? with _ | id <;> rw [hL] at h <;>
    simp at h
  obtain ⟨hid, hr, hinc⟩ := h
  subst hr
  subst hid
  subst hinc
  exact ⟨rfl, rfl, rfl⟩

/-- Behavior of the drain loop: it pops some suffix of the request
stack, emitting exactly the responses for that suffix in reverse stack
order; the emitted and remaining responses together are the initial heap
content; afterwards no release is pending; and heap order is
preserved. -/
theorem drainAux_spec :
    ∀ (fuel : Nat) (inc : Incoming) (out : List Response) (incf : Incoming),
      inc.requests.length ≤ fuel → drainAux fuel inc = (out, incf) →
      ∃ s, inc.requests = incf.requests ++ s ∧
        out.map Response.msgid = s.reverse ∧
        List.Perm (out ++ incf.responses) inc.responses ∧
        incf.next_ready = none ∧
        (List.Sorted respGE inc.responses →
          List.Sorted respGE incf.responses) := by
  intro fuel
  induction fuel with
  | zero =>
      intro inc out incf hlen heq
      have hreq : inc.requests = [] :=
        List.length_eq_zero.mp (Nat.le_zero.mp hlen)
      simp only [drainAux] at heq
      obtain ⟨ho, hi⟩ := Prod.mk.injEq .. ▸ heq
      subst ho; subst hi
      refine ⟨[], by simp, by simp, by simp, ?_, fun h => h⟩
      simp [Incoming.next_ready, hreq]
  | succ fuel ih =>
      intro inc out incf hlen heq
      simp only [drainAux] at heq
      cases hnr : inc.next_ready with
      | none =>
          rw [hnr] at heq
          simp at heq
          obtain ⟨ho, hi⟩ := heq
          subst ho; subst hi
          exact ⟨[], by simp, by simp, by simp, hnr, fun h => h⟩
      | some pair =>
          obtain ⟨r, inc'⟩ := pair
          obtain ⟨hlast, hreq', hresp⟩ := next_ready_some hnr
          rw [hnr] at heq
          cases hrec : drainAux fuel inc' with
          | mk rs incf' =>
              have heq2 : (r :: (drainAux fuel inc').1,
                  (drainAux fuel inc').2) = (out, incf) := heq
              rw [hrec] at heq2
              simp at heq2
              obtain ⟨ho, hi⟩ := heq2
              subst ho; subst hi
              have hne : inc.requests ≠ [] := by
                intro hc
                rw [hc] at hlast
                simp at hlast
              have hlen' : inc'.requests.length ≤ fuel := by
                rw [hreq', List.length_dropLast]
                have : 1 ≤ inc.requests.length :=
                  List.length_pos.mpr hne
                omega
              obtain ⟨s, h1, h2, h3, h4, h5⟩ := ih inc' rs incf' hlen' hrec
              have hsplit : inc.requests = inc'.requests ++ [r.msgid] := by
                rw [hreq']
                exact (List.dropLast_append_getLast? _ hlast).symm
              refine ⟨s ++ [r.msgid], ?_, ?_, ?_, h4, ?_⟩
              · rw [hsplit, h1, List.append_assoc]
              · simp [h2]
              · rw [hresp]
                exact List.Perm.cons r h3
              · intro hs
                rw [hresp] at hs
                exact h5 (List.sorted_cons.mp hs).2

/-- Behavior of one `push_response`: it pops some suffix of the request
stack, emitting exactly the responses for that suffix in reverse stack
order; emitted plus buffered responses are the old buffer plus the new
arrival; afterwards no release is pending; heap order is preserved. -/
theorem push_response_spec (inc : Incoming) (r : Response)
    (out : List Response) (incf : Incoming)
    (heq : inc.push_response r = (out, incf)) :
    ∃ s, inc.requests = incf.requests ++ s ∧
      out.map Response.msgid = s.reverse ∧
      List.Perm (out ++ incf.responses) (r :: inc.responses) ∧
      incf.next_ready = none ∧
      (List.Sorted respGE inc.responses →
        List.Sorted respGE incf.responses) := by
  unfold Incoming.push_response Incoming.drain at heq
  obtain ⟨s, h1, h2, h3, h4, h5⟩ :=
    drainAux_spec _ _ _ _ (Nat.le_refl _) heq
  refine ⟨s, h1, h2, ?_, h4, ?_⟩
  · exact h3.trans (List.perm_orderedInsert _ r inc.responses)
  · intro hs
    exact h5 (List.Sorted.orderedInsert r inc.responses hs)

/-- Pushing a list of requests appends their msgids to the stack and
leaves the buffer alone. -/
theorem pushRequests_eq :
    ∀ (ids : List Nat) (l : List Nat) (resp : List Response),
      Incoming.pushRequests ⟨l, resp⟩ ids = ⟨l ++ ids, resp⟩ := by
  intro ids
  induction ids with
  | nil => intro l resp; simp [Incoming.pushRequests]
  | cons i rest ih =>
      intro l resp
      have hstep : Incoming.pushRequests ⟨l, resp⟩ (i :: rest) =
          Incoming.pushRequests ⟨l ++ [i], resp⟩ rest := rfl
      rw [hstep, ih]
      simp

/-- Behavior of a whole arrival sequence: the concatenated emissions
cover some popped suffix of the stack in reverse order, emitted plus
buffered responses are the arrivals plus the initial buffer, and after a
nonempty arrival sequence no release is pending. -/
theorem runArrivals_spec :
    ∀ (rs : List Response) (inc : Incoming) (out : List Response)
      (incf : Incoming),
      inc.runArrivals rs = (out, incf) →
      List.Sorted respGE inc.responses →
      ∃ s, inc.requests = incf.requests ++ s ∧
        out.map Response.msgid = s.reverse ∧
        List.Perm (out ++ incf.responses) (rs ++ inc.responses) ∧
        List.Sorted respGE incf.responses ∧
        (rs = [] → incf = inc ∧ out = []) ∧
        (rs ≠ [] → incf.next_ready = none) := by
  intro rs
  induction rs with
  | nil =>
      intro inc out incf heq hs
      have heq2 : (([], inc) : List Response × Incoming) = (out, incf) := heq
      simp at heq2
      obtain ⟨ho, hi⟩ := heq2
      subst ho; subst hi
      exact ⟨[], by simp, by simp, by simp, hs, fun _ => ⟨rfl, rfl⟩,
        fun hne => absurd rfl hne⟩
  | cons r rest ih =>
      intro inc out incf heq hs
      cases hp : inc.push_response r with
      | mk out1 inc1 =>
          cases hr : inc1.runArrivals rest with
          | mk out2 inc2 =>
              have heq2 : ((inc.push_response r).1 ++
                  ((inc.push_response r).2.runArrivals rest).1,
                  ((inc.push_response r).2.runArrivals rest).2) =
                  (out, incf) := heq
              rw [hp] at heq2
              simp only [] at heq2
              rw [hr] at heq2
              simp at heq2
              obtain ⟨ho, hi⟩ := heq2
              subst ho; subst hi
              obtain ⟨s1, p1, p2, p3, p4, p5⟩ :=
                push_response_spec inc r out1 inc1 hp
              have hs1 : List.Sorted respGE inc1.responses := p5 hs
              obtain ⟨s2, q1, q2, q3, q4, q5, q6⟩ := ih inc1 out2 inc2 hr hs1
              refine ⟨s2 ++ s1, ?_, ?_, ?_, q4, ?_, ?_⟩
              · rw [p1, q1, List.append_assoc]
              · simp [p2, q2, List.reverse_append]
              · have step1 : List.Perm ((out1 ++ out2) ++ inc2.responses)
                    (out1 ++ (rest ++ inc1.responses)) := by
                  rw [List.append_assoc]
                  exact List.Perm.append_left out1 q3
                have step2 : List.Perm (out1 ++ (rest ++ inc1.responses))
                    (rest ++ (out1 ++ inc1.responses)) := by
                  rw [← List.append_assoc, ← List.append_assoc]
                  exact List.Perm.append_right _ List.perm_append_comm
                have step3 : List.Perm (rest ++ (out1 ++ inc1.responses))
                    (rest ++ (r :: inc.responses)) :=
                  List.Perm.append_left rest p3
                have step4 : List.Perm (rest ++ (r :: inc.responses))
                    (r :: (rest ++ inc.responses)) := List.perm_middle
                exact ((step1.trans step2).trans step3).trans step4
              · intro hc
                exact absurd hc (List.cons_ne_nil r rest)
              · intro _
                by_cases hrn : rest = []
                · obtain ⟨hi2, _⟩ := q5 hrn
                  rw [hi2]
                  exact p4
                · exact q6 hrn

/-- In a strictly increasing list every element is at most the last
one. -/
theorem sorted_lt_le_getLast {l : List Nat}
    (hs : List.Sorted (· < ·) l) {t : Nat} (ht : l.getLast? = some t) :
    ∀ x ∈ l, x ≤ t := by
  intro x hx
  have hl : l.dropLast ++ [t] = l := List.dropLast_append_getLast? t ht
  rw [← hl] at hx hs
  rcases List.mem_append.mp hx with hx1 | hx2
  · have hlt := (List.pairwise_append.mp hs).2.2 x hx1 t (by simp)
    omega
  · simp at hx2
    omega

/-- C1: starting from a fresh `Incoming` with the strictly increasing
msgids of N calls pushed in submission order, feeding the N responses in
any arrival order emits them in exactly reverse submission order, with
no duplicate and no missing release, and fully drains both structures.
Concretely, for requests [1,2,3]: responses arriving 3,2,1 are each
released immediately on arrival, while responses arriving 1,2,3 release
nothing until 3 arrives and then cascade-release 3,2,1 together. -/
theorem c1_reverse_order_release (ids : List Nat)
    (arrivals : List Response) (hsort : List.Sorted (· < ·) ids)
    (hperm : List.Perm (arrivals.map Response.msgid) ids) :
    (((Incoming.new.pushRequests ids).runArrivals arrivals).1.map
        Response.msgid = ids.reverse ∧
      List.Perm ((Incoming.new.pushRequests ids).runArrivals arrivals).1
        arrivals ∧
      ((Incoming.new.pushRequests ids).runArrivals arrivals).2 =
        Incoming.new) ∧
    ((Incoming.mk [1, 2, 3] []).push_response ⟨3, RValue.nil, RValue.nil⟩ =
        ([⟨3, RValue.nil, RValue.nil⟩], ⟨[1, 2], []⟩) ∧
      (Incoming.mk [1, 2] []).push_response ⟨2, RValue.nil, RValue.nil⟩ =
        ([⟨2, RValue.nil, RValue.nil⟩], ⟨[1], []⟩) ∧
      (Incoming.mk [1] []).push_response ⟨1, RValue.nil, RValue.nil⟩ =
        ([⟨1, RValue.nil, RValue.nil⟩], ⟨[], []⟩)) ∧
    ((Incoming.mk [1, 2, 3] []).push_response ⟨1, RValue.nil, RValue.nil⟩ =
        ([], ⟨[1, 2, 3], [⟨1, RValue.nil, RValue.nil⟩]⟩) ∧
      (Incoming.mk [1, 2, 3]
          [⟨1, RValue.nil, RValue.nil⟩]).push_response
          ⟨2, RValue.nil, RValue.nil⟩ =
        ([], ⟨[1, 2, 3], [⟨2, RValue.nil, RValue.nil⟩,
          ⟨1, RValue.nil, RValue.nil⟩]⟩) ∧
      (Incoming.mk [1, 2, 3] [⟨2, RValue.nil, RValue.nil⟩,
          ⟨1, RValue.nil, RValue.nil⟩]).push_response
          ⟨3, RValue.nil, RValue.nil⟩ =
        ([⟨3, RValue.nil, RValue.nil⟩, ⟨2, RValue.nil, RValue.nil⟩,
          ⟨1, RValue.nil, RValue.nil⟩], ⟨[], []⟩)) := by
  refine ⟨?_, ⟨rfl, rfl, rfl⟩, ⟨rfl, rfl, rfl⟩⟩
  have hstart : Incoming.new.pushRequests ids = ⟨ids, []⟩ := by
    have h := pushRequests_eq ids [] []
    simpa [Incoming.new] using h
  rw [hstart]
  cases hrun : (Incoming.mk ids []).runArrivals arrivals with
  | mk out incf =>
      simp only []
      obtain ⟨s, h1, h2, h3, h4, h5, h6⟩ :=
        runArrivals_spec arrivals ⟨ids, []⟩ out incf hrun (by simp)
      have hids_eq : ids = incf.requests ++ s := h1
      by_cases harr : arrivals = []
      · subst harr
        obtain ⟨hif, ho⟩ := h5 rfl
        have hids : ids = [] := by
          have : List.Perm ([] : List Nat) ids := by simpa using hperm
          exact this.symm.eq_nil
        subst hids
        subst ho
        rw [hif]
        exact ⟨by simp, by simp, rfl⟩
      · have hnr : incf.next_ready = none := h6 harr
        have hperm2 : List.Perm (out.map Response.msgid ++
            incf.responses.map Response.msgid) ids := by
          rw [← List.map_append]
          exact (h3.map Response.msgid).trans (by simpa using hperm)
        have hrs : List.Perm (incf.responses.map Response.msgid)
            incf.requests := by
          rw [h2] at hperm2
          have e1 : List.Perm
              (s ++ incf.responses.map Response.msgid)
              (s ++ incf.requests) := by
            have e2 : List.Perm (s ++ incf.responses.map Response.msgid)
                (s.reverse ++ incf.responses.map Response.msgid) :=
              List.Perm.append_right _ (List.reverse_perm s).symm
            have e3 : List.Perm (incf.requests ++ s)
                (s ++ incf.requests) := List.perm_append_comm
            exact (e2.trans hperm2).trans (hids_eq ▸ e3)
          exact (List.perm_append_left_iff s).mp e1
        have hreqf : incf.requests = [] := by
          by_contra hne
          obtain ⟨t, ht⟩ :=
            Option.isSome_iff_exists.mp (List.getLast?_isSome.mpr hne)
          have htmem : t ∈ incf.requests := by
            have hl := List.dropLast_append_getLast? t ht
            rw [← hl]
            simp
          have htresp : t ∈ incf.responses.map Response.msgid :=
            hrs.mem_iff.mpr htmem
          obtain ⟨r0, hr0mem, hr0id⟩ := List.mem_map.mp htresp
          cases hresf : incf.responses with
          | nil =>
              rw [hresf] at htresp
              simp at htresp
          | cons rh tl =>
              have hsort_f : List.Sorted respGE (rh :: tl) := hresf ▸ h4
              have hallle : ∀ x ∈ rh :: tl, x.msgid ≤ rh.msgid := by
                intro x hx
                rcases List.mem_cons.mp hx with hx1 | hx2
                · rw [hx1]
                · exact (List.sorted_cons.mp hsort_f).1 x hx2
              have hrhmem : rh.msgid ∈ incf.requests := by
                apply hrs.mem_iff.mp
                exact List.mem_map.mpr
                  ⟨rh, by rw [hresf]; exact List.mem_cons_self _ _, rfl⟩
              have hsort_req : List.Sorted (· < ·) incf.requests := by
                rw [hids_eq] at hsort
                exact (List.pairwise_append.mp hsort).1
              have hle1 : rh.msgid ≤ t :=
                sorted_lt_le_getLast hsort_req ht rh.msgid hrhmem
              have hle2 : t ≤ rh.msgid := by
                have h0 := hallle r0 (by rw [hresf] at hr0mem; exact hr0mem)
                omega
              have hteq : t = rh.msgid := Nat.le_antisymm hle2 hle1
              have hcontra : incf.next_ready ≠ none := by
                unfold Incoming.next_ready
                rw [ht, hresf]
                simp [hteq]
              exact hcontra hnr
        have hids_s : ids = s := by
          rw [hids_eq, hreqf]
          simp
        have hrespf : incf.responses = [] := by
          have h0 : List.Perm (incf.responses.map Response.msgid) [] := by
            rw [← hreqf]
            exact hrs
          exact List.map_eq_nil_iff.mp h0.eq_nil
        refine ⟨by rw [h2, hids_s], ?_, ?_⟩
        · have := h3
          rw [hrespf] at this
          simpa using this
        · cases incf with
          | mk a b =>
              simp only [Incoming.new]
              simp at hreqf hrespf
              rw [hreqf, hrespf]

/-- C1 witness: requests [1,2,3] with responses arriving in the order
2, 3, 1 are released with msgids exactly 3, 2, 1. -/
theorem c1_reverse_order_release_witness :
    ((Incoming.new.pushRequests [1, 2, 3]).runArrivals
        [⟨2, RValue.nil, RValue.nil⟩, ⟨3, RValue.nil, RValue.nil⟩,
          ⟨1, RValue.nil, RValue.nil⟩]).1.map Response.msgid = [3, 2, 1] :=
  (c1_reverse_order_release [1, 2, 3]
    [⟨2, RValue.nil, RValue.nil⟩, ⟨3, RValue.nil, RValue.nil⟩,
      ⟨1, RValue.nil, RValue.nil⟩] (by decide) (by decide)).1.1

/-- C2 counterexample: with pending requests [1,2] and a buffered
response for msgid 1, the arrival of the response for msgid 2 makes the
source's `push_response` cascade-release both responses (the max-heap
peek 2 matches the stack top 2), while the claim's minimum-msgid test
releases nothing (the buffer minimum 1 differs from the stack top 2):
the claimed release loop disagrees with the code. -/
theorem c2_counterexample :
    (Incoming.mk [1, 2] [⟨1, RValue.nil, RValue.nil⟩]).push_response
        ⟨2, RValue.nil, RValue.nil⟩ =
      ([⟨2, RValue.nil, RValue.nil⟩, ⟨1, RValue.nil, RValue.nil⟩],
        ⟨[], []⟩) ∧
    receiveResponseSpecMin [1, 2] [⟨1, RValue.nil, RValue.nil⟩]
        ⟨2, RValue.nil, RValue.nil⟩ =
      ([], [1, 2],
        [⟨2, RValue.nil, RValue.nil⟩, ⟨1, RValue.nil, RValue.nil⟩]) ∧
    ([⟨2, RValue.nil, RValue.nil⟩, ⟨1, RValue.nil, RValue.nil⟩] :
        List Response) ≠ [] :=
  ⟨rfl, rfl, by simp⟩

/-- Erasing by msgid from a list whose sole response with that msgid is
`a` is, up to permutation, removing `a`. -/
theorem eraseP_perm_of_unique :
    ∀ {l : List Response} {a : Response} {t : List Response},
      List.Perm l (a :: t) →
      (∀ x ∈ l, x.msgid = a.msgid → x = a) →
      List.Perm (l.eraseP (fun x => x.msgid == a.msgid)) t := by
  intro l
  induction l with
  | nil =>
      intro a t h _
      exact absurd h.symm.eq_nil (List.cons_ne_nil a t)
  | cons x l' ih =>
      intro a t h huniq
      by_cases hx : x.msgid = a.msgid
      · have hxa : x = a := huniq x (List.mem_cons_self _ _) hx
        subst hxa
        simp only [List.eraseP_cons, hx, beq_self_eq_true, if_pos]
        exact h.cons_inv
      · have hane : a ≠ x := fun hc => hx (by rw [hc])
        have hamem : a ∈ l' := by
          have hm : a ∈ x :: l' := h.mem_iff.mpr (List.mem_cons_self a t)
          rcases List.mem_cons.mp hm with h1 | h1
          · exact absurd h1 hane
          · exact h1
        obtain ⟨s1, s2, hsplit⟩ := List.append_of_mem hamem
        have hl'perm : List.Perm l' (a :: (s1 ++ s2)) := by
          rw [hsplit]
          exact List.perm_middle
        have ihp := ih hl'perm
          (fun y hy hid => huniq y (List.mem_cons_of_mem _ hy) hid)
        have hxbeq : (x.msgid == a.msgid) = false := by
          simp [hx]
        simp only [List.eraseP_cons, hxbeq]
        have ht : List.Perm t (x :: (s1 ++ s2)) := by
          have h2 : List.Perm (x :: l') (x :: a :: (s1 ++ s2)) :=
            hl'perm.cons x
          have h3 : List.Perm (a :: t) (x :: a :: (s1 ++ s2)) :=
            h.symm.trans h2
          have h4 : List.Perm (x :: a :: (s1 ++ s2))
              (a :: x :: (s1 ++ s2)) := List.Perm.swap a x (s1 ++ s2)
          exact (h3.trans h4).cons_inv
        exact (ihp.cons x).trans ht.symm

/-- For a buffer permuting a nonempty heap sorted by decreasing msgid
with pairwise distinct msgids, the buffer element of maximum msgid found
by the spec's release loop is exactly the heap's peek. -/
theorem bufferMax_eq_head {rh : Response} {tl buf : List Response}
    (hsort : List.Sorted respGE (rh :: tl))
    (hperm : List.Perm (rh :: tl) buf)
    (hnd : ((rh :: tl).map Response.msgid).Nodup) :
    bufferMax buf = some rh := by
  have hmax : (buf.map Response.msgid).max? = some rh.msgid := by
    rw [List.max?_eq_some_iff]
    · constructor
      · exact List.mem_map.mpr
          ⟨rh, hperm.mem_iff.mp (List.mem_cons_self _ _), rfl⟩
      · intro x hx
        obtain ⟨r0, hr0, hid⟩ := List.mem_map.mp hx
        have hr0' : r0 ∈ rh :: tl := hperm.mem_iff.mpr hr0
        rcases List.mem_cons.mp hr0' with h1 | h1
        · rw [← hid, h1]
        · rw [← hid]
          exact (List.sorted_cons.mp hsort).1 r0 h1
    · exact fun a => Nat.le_refl a
    · exact fun a b => max_choice a b
    · exact fun a b c => Nat.max_le
  have hndbuf : (buf.map Response.msgid).Nodup :=
    ((hperm.map Response.msgid).nodup_iff).mp hnd
  have hfind : (buf.find? (fun r => r.msgid = rh.msgid)).isSome :=
    List.find?_isSome.mpr
      ⟨rh, hperm.mem_iff.mp (List.mem_cons_self _ _), by simp⟩
  obtain ⟨r1, hr1⟩ := Option.isSome_iff_exists.mp hfind
  have hid1 : r1.msgid = rh.msgid := by
    have hp1 := List.find?_some hr1
    simpa using hp1
  have hr1rh : r1 = rh :=
    List.inj_on_of_nodup_map hndbuf (List.mem_of_find?_eq_some hr1)
      (hperm.mem_iff.mp (List.mem_cons_self _ _)) hid1
  unfold bufferMax
  rw [hmax]
  show List.find? (fun r => decide (r.msgid = rh.msgid)) buf = some rh
  rw [hr1, hr1rh]

/-- The source's drain loop is extensionally the spec's release loop
with the maximum-msgid test, over any buffer permutation of the heap,
provided the buffered msgids are pairwise distinct: same emissions, same
remaining stack, and buffers equal up to permutation. -/
theorem drainAux_eq_specMax :
    ∀ (fuel : Nat) (reqs : List Nat) (h buf : List Response)
      (out : List Response) (incf : Incoming),
      List.Sorted respGE h → List.Perm h buf →
      (h.map Response.msgid).Nodup →
      drainAux fuel ⟨reqs, h⟩ = (out, incf) →
      ∃ buf', drainSpecMaxAux fuel reqs buf = (out, incf.requests, buf') ∧
        List.Perm incf.responses buf' := by
  intro fuel
  induction fuel with
  | zero =>
      intro reqs h buf out incf hsort hperm hnd heq
      have heq2 : (([], (⟨reqs, h⟩ : Incoming)) :
          List Response × Incoming) = (out, incf) := heq
      simp at heq2
      obtain ⟨ho, hi⟩ := heq2
      subst ho
      subst hi
      exact ⟨buf, rfl, hperm⟩
  | succ fuel ih =>
      intro reqs h buf out incf hsort hperm hnd heq
      cases h with
      | nil =>
          have hbuf : buf = [] := hperm.symm.eq_nil
          subst hbuf
          have hnr : (Incoming.mk reqs []).next_ready = none := by
            unfold Incoming.next_ready
            cases hL : reqs.getLast? <;> simp
          simp only [drainAux] at heq
          rw [hnr] at heq
          have heq2 : (([], (⟨reqs, []⟩ : Incoming)) :
              List Response × Incoming) = (out, incf) := heq
          simp at heq2
          obtain ⟨ho, hi⟩ := heq2
          subst ho
          subst hi
          refine ⟨[], ?_, List.Perm.refl []⟩
          simp only [drainSpecMaxAux]
          have hbm : bufferMax [] = none := rfl
          rw [hbm]
          cases hL : reqs.getLast? <;> simp
      | cons rh tl =>
          have hbm : bufferMax buf = some rh :=
            bufferMax_eq_head hsort hperm hnd
          cases hL : reqs.getLast? with
          | none =>
              have hnr : (Incoming.mk reqs (rh :: tl)).next_ready =
                  none := by
                unfold Incoming.next_ready
                rw [hL]
              simp only [drainAux] at heq
              rw [hnr] at heq
              have heq2 : (([], (⟨reqs, rh :: tl⟩ : Incoming)) :
                  List Response × Incoming) = (out, incf) := heq
              simp at heq2
              obtain ⟨ho, hi⟩ := heq2
              subst ho
              subst hi
              refine ⟨buf, ?_, hperm⟩
              simp only [drainSpecMaxAux]
              rw [hL, hbm]
          | some id =>
              by_cases hid : id = rh.msgid
              · have hnr : (Incoming.mk reqs (rh :: tl)).next_ready =
                    some (rh, ⟨reqs.dropLast, tl⟩) := by
                  unfold Incoming.next_ready
                  rw [hL]
                  simp [hid]
                simp only [drainAux] at heq
                rw [hnr] at heq
                have heq2 : ((rh ::
                    (drainAux fuel ⟨reqs.dropLast, tl⟩).1,
                    (drainAux fuel ⟨reqs.dropLast, tl⟩).2) :
                    List Response × Incoming) = (out, incf) := heq
                cases hrec : drainAux fuel ⟨reqs.dropLast, tl⟩ with
                | mk rs incf' =>
                    rw [hrec] at heq2
                    simp at heq2
                    obtain ⟨ho, hi⟩ := heq2
                    subst ho
                    subst hi
                    have hsort' : List.Sorted respGE tl :=
                      (List.sorted_cons.mp hsort).2
                    have hnd' : (tl.map Response.msgid).Nodup := by
                      simp only [List.map_cons, List.nodup_cons] at hnd
                      exact hnd.2
                    have huniq : ∀ x ∈ buf, x.msgid = rh.msgid →
                        x = rh := by
                      intro x hx hxid
                      have hndbuf : (buf.map Response.msgid).Nodup :=
                        ((hperm.map Response.msgid).nodup_iff).mp hnd
                      exact List.inj_on_of_nodup_map hndbuf hx
                        (hperm.mem_iff.mp (List.mem_cons_self _ _)) hxid
                    have herase : List.Perm tl
                        (buf.eraseP (fun x => x.msgid == rh.msgid)) :=
                      (eraseP_perm_of_unique hperm.symm huniq).symm
                    obtain ⟨buf', hspec, hperm'⟩ :=
                      ih reqs.dropLast tl
                        (buf.eraseP (fun x => x.msgid == rh.msgid))
                        rs incf' hsort' herase hnd' hrec
                    refine ⟨buf', ?_, hperm'⟩
                    simp only [drainSpecMaxAux]
                    rw [hL, hbm]
                    simp only [hid, if_pos]
                    rw [hspec]
              · have hnr : (Incoming.mk reqs (rh :: tl)).next_ready =
                    none := by
                  unfold Incoming.next_ready
                  rw [hL]
                  simp [hid]
                simp only [drainAux] at heq
                rw [hnr] at heq
                have heq2 : (([], (⟨reqs, rh :: tl⟩ : Incoming)) :
                    List Response × Incoming) = (out, incf) := heq
                simp at heq2
                obtain ⟨ho, hi⟩ := heq2
                subst ho
                subst hi
                refine ⟨buf, ?_, hperm⟩
                simp only [drainSpecMaxAux]
                rw [hL, hbm]
                simp [hid]

/-- C2 amended: `push_response` inserts the arriving response and then
repeatedly tests whether the buffer's MAXIMUM msgid (the max-heap peek)
equals the top of PendingRequests, popping both and emitting while the
test holds, so a single arrival may cascade-release several buffered
responses.  The source's heap-based loop and the spec-style loop over an
unordered buffer emit the same responses in the same order and leave the
same stack and (up to permutation) the same buffer. -/
theorem c2_insert_then_max_release (inc : Incoming) (r : Response)
    (hsort : List.Sorted respGE inc.responses)
    (hnd : ((r :: inc.responses).map Response.msgid).Nodup) :
    ∃ out incf buf',
      inc.push_response r = (out, incf) ∧
      receiveResponseSpecMax inc.requests inc.responses r =
        (out, incf.requests, buf') ∧
      List.Perm incf.responses buf' := by
  cases hp : inc.push_response r with
  | mk out incf =>
      have heq : drainAux inc.requests.length
          ⟨inc.requests, heapPush inc.responses r⟩ = (out, incf) := hp
      have hsort' : List.Sorted respGE (heapPush inc.responses r) :=
        List.Sorted.orderedInsert r inc.responses hsort
      have hpermh : List.Perm (heapPush inc.responses r)
          (r :: inc.responses) :=
        List.perm_orderedInsert _ r inc.responses
      have hnd' : ((heapPush inc.responses r).map Response.msgid).Nodup :=
        ((hpermh.map Response.msgid).nodup_iff).mpr hnd
      obtain ⟨buf', hspec, hperm'⟩ :=
        drainAux_eq_specMax inc.requests.length inc.requests
          (heapPush inc.responses r) (r :: inc.responses) out incf
          hsort' hpermh hnd' heq
      exact ⟨out, incf, buf', rfl, hspec, hperm'⟩

/-- C2 witness: pending requests [1,2] with a buffered response for 1;
the arrival of the response for 2 cascade-releases both, and the
spec-style maximum-msgid loop reproduces the emissions and final
state. -/
theorem c2_insert_then_max_release_witness :
    ∃ out incf buf',
      (Incoming.mk [1, 2]
          [⟨1, RValue.nil, RValue.nil⟩]).push_response
          ⟨2, RValue.nil, RValue.nil⟩ = (out, incf) ∧
      receiveResponseSpecMax [1, 2] [⟨1, RValue.nil, RValue.nil⟩]
          ⟨2, RValue.nil, RValue.nil⟩ = (out, incf.requests, buf') ∧
      List.Perm incf.responses buf' :=
  c2_insert_then_max_release ⟨[1, 2], [⟨1, RValue.nil, RValue.nil⟩]⟩
    ⟨2, RValue.nil, RValue.nil⟩ (by simp) (by simp)

end Neophyte
